import Mathlib

/-!
Verification of the Alembic schema-migration history validator of the Rucio
repository (files `lib/rucio/db/sqla/_fingerprint.py`,
`lib/rucio/db/sqla/alembic_validation.py` and
`tools/check_alembic_history.py`) against its natural-language specification.

The Python sources are shallowly embedded below: pure helpers become Lean
functions over `String`/`List`, the SQLAlchemy reflection result becomes an
explicit `MetadataModel` value, and the stateful Alembic commands become
explicit state passing through an abstract database-operations record
(`DBOps`), with a trace of the executed commands threaded alongside so that
temporal statements ("no destructive operation ran") can be expressed.
-/

/-! ### Basic character/string helpers

Python compares strings lexicographically by code point; Lean's built-in
`String` order does not reduce inside the kernel, so the comparison is
re-implemented over the underlying character lists. -/

/-- Strict lexicographic comparison of character lists by code point,
mirroring Python string comparison. -/
def chLt : List Char → List Char → Bool
  | [], [] => false
  | [], _ :: _ => true
  | _ :: _, [] => false
  | a :: as, b :: bs => if a = b then chLt as bs else decide (a.toNat < b.toNat)

/-- Strict "<" on strings, by code points (Python semantics). -/
def strLt (a b : String) : Bool := chLt a.data b.data

/-- Non-strict "<=" on strings. -/
def strLe (a b : String) : Bool := strLt a b || a == b

/-- Lexicographic non-strict comparison of string tuples, mirroring Python
tuple comparison.  Sort keys of every `sorted(...)` call in the sources are
encoded as `List String`. -/
def keyLe : List String → List String → Bool
  | [], _ => true
  | _ :: _, [] => false
  | a :: as, b :: bs => if a = b then keyLe as bs else strLt a b

/-- Sort a list by a string-tuple key, as Python `sorted(l, key=k)`
(a stable insertion sort, like Python's stable `sorted`). -/
def sortByKey (k : α → List String) (l : List α) : List α :=
  List.insertionSort (fun a b => keyLe (k a) (k b) = true) l

/-- Python `sorted(...)` over strings. -/
def sortStrings (l : List String) : List String :=
  List.insertionSort (fun a b => strLe a b = true) l

/-- Python `sorted(set(...))` over strings: distinct elements in order. -/
def sortedSet (l : List String) : List String := sortStrings l.dedup

/-- Helper splitting a character stream into maximal non-whitespace runs;
accumulates the current word in reverse. -/
def wordsAux : List Char → List Char → List String
  | [], acc => if acc.isEmpty then [] else [String.mk acc.reverse]
  | c :: cs, acc =>
    if c.isWhitespace then
      if acc.isEmpty then wordsAux cs [] else String.mk acc.reverse :: wordsAux cs []
    else wordsAux cs (c :: acc)

/-- Python `str.split()` with no arguments: split on whitespace runs and
discard empty fields. -/
def pySplitWs (s : String) : List String := wordsAux s.data []

/-- Python `" ".join(text.split())`, the whitespace normalisation used by
`_normalize_sql_text`. -/
def wsNormalize (s : String) : String := String.intercalate " " (pySplitWs s)

/-- Python `str.strip()` with no arguments: drop whitespace on both ends. -/
def trimWs (s : String) : String :=
  String.mk (((s.data.dropWhile (·.isWhitespace)).reverse.dropWhile (·.isWhitespace)).reverse)

/-- The ASCII apostrophe character (code point 39). -/
def squoteChar : Char := Char.ofNat 39

/-- The one-character string holding an apostrophe. -/
def squote : String := String.mk [squoteChar]

/-- Python `str.strip("'")`: drop apostrophes on both ends. -/
def stripSquotes (s : String) : String :=
  String.mk (((s.data.dropWhile (· = squoteChar)).reverse.dropWhile (· = squoteChar)).reverse)

/-- Python `str.upper()` for the ASCII strings handled here. -/
def upperStr (s : String) : String := String.mk (s.data.map Char.toUpper)

/-- Python `str.lower()` for the ASCII strings handled here. -/
def lowerStr (s : String) : String := String.mk (s.data.map Char.toLower)

/-- Python `repr` of a string, for the simple identifier-like strings that
appear in fingerprint tokens: the text wrapped in apostrophes. -/
def pyReprStr (s : String) : String := squote ++ s ++ squote

/-- Python `repr` of a tuple of strings (one-element tuples carry the
trailing comma). -/
def pyReprTuple : List String → String
  | [x] => "(" ++ pyReprStr x ++ ",)"
  | xs => "(" ++ String.intercalate ", " (xs.map pyReprStr) ++ ")"

/-- Python `repr` of a list of strings. -/
def pyListRepr (xs : List String) : String :=
  "[" ++ String.intercalate ", " (xs.map pyReprStr) ++ "]"

/-- Python `str(...)` of a bool. -/
def pyBool (b : Bool) : String := if b then "True" else "False"

/-- Decimal digits of a natural number (the first argument is fuel, one
unit per digit; the number itself is always ample fuel), used to render
counts in detail strings exactly as Python string interpolation does. -/
def natDigitsAux : Nat → Nat → List Char
  | 0, _ => []
  | _, 0 => []
  | fuel + 1, n + 1 => natDigitsAux fuel ((n + 1) / 10) ++ [Char.ofNat (48 + (n + 1) % 10)]

/-- Python `str(...)` of a non-negative integer. -/
def pyNat (n : Nat) : String :=
  if n = 0 then "0" else String.mk (natDigitsAux n n)

/-- Deterministic stand-in for `hashlib.sha256(text.encode()).hexdigest()`.
The SHA-256 digest is a pure deterministic function of the canonical text's
bytes; every claim below depends only on that purity (equal texts give equal
digests), and concrete digest inequalities are established by evaluation,
mirroring the collision-free behaviour of SHA-256 on the concrete distinct
texts involved. -/
def hashChars : List Char → Nat
  | [] => 5381
  | c :: cs => (hashChars cs * 131 + c.toNat) % 2305843009213693951

/-- Digest of a text: the stand-in hash rendered in decimal. -/
def hashText (s : String) : String := pyNat (hashChars s.data)

/-! ### Embedding of `lib/rucio/db/sqla/_fingerprint.py` -/

/-- A reflected column: name, rendered type (`_normalize_type` output is the
dialect's textual rendering, carried here as data), nullability, the compiled
text of the server default (if any), and the `primary_key` flag. -/
structure ColumnInfo where
  name : String
  typ : String
  nullable : Bool
  serverDefault : Option String
  primaryKey : Bool
deriving DecidableEq

/-- A reflected index.  `method`, `opclasses` and `predicate` carry the
backend options that `schema_fingerprint` extracts from
`idx.dialect_options` (`using`, `ops`, `where`); the compiled predicate text
is carried as data. -/
structure IndexInfo where
  name : Option String
  unique : Bool
  columns : List String
  method : Option String
  opclasses : List (String × String)
  predicate : Option String
deriving DecidableEq

/-- A reflected foreign key: the parent column, the target table full name,
the target column, and the `ondelete`/`onupdate` actions (the source reads
them from the key or its constraint; the resolved value is carried here). -/
structure FKInfo where
  parentColumn : String
  targetTable : String
  targetColumn : String
  ondelete : Option String
  onupdate : Option String
deriving DecidableEq

/-- A reflected table with its sub-collections.  `table.constraints` and
`table.indexes` are Python sets and `md.tables` is a dict, so the embedding
carries them as lists whose order models the reflection's enumeration
order. -/
structure TableInfo where
  schema : Option String
  name : String
  columns : List ColumnInfo
  pkColumns : List String
  uniqueConstraints : List (List String)
  checkConstraints : List String
  foreignKeys : List FKInfo
  indexes : List IndexInfo
deriving DecidableEq

/-- The reflected metadata: the values of `md.tables` in enumeration order. -/
abbrev MetadataModel := List TableInfo

/-- `_normalize_sql_text`: `""` for `None`, otherwise the compiled text with
whitespace runs collapsed (`" ".join(compiled.split())`); compilation itself
is external to the repository, so the compiled text is the argument. -/
def normalizeSqlText : Option String → String
  | none => ""
  | some s => wsNormalize s

/-- Character class `[a-zA-Z0-9_]` of the cast-stripping regex. -/
def isWordChar (c : Char) : Bool := c.isAlpha || c.isDigit || c = '_'

/-- Character class `[a-zA-Z_]` opening an identifier in the regex. -/
def isIdentStart (c : Char) : Bool := c.isAlpha || c = '_'

/-- One step of `_CAST_STRIP_RE.sub("", text)` on the reversed character
list: remove one trailing `::identifier` cast, or report that none is
present. -/
def stripCastOnce (rev : List Char) : Option (List Char) :=
  match rev.dropWhile isWordChar, (rev.takeWhile isWordChar).getLast? with
  | c1 :: c2 :: rest2, some c0 =>
    if c1 = ':' ∧ c2 = ':' ∧ isIdentStart c0 then some rest2 else none
  | _, _ => none

/-- Iterated cast stripping (the first argument is fuel; each successful
strip removes at least three characters, so the input length is always
ample fuel). -/
def stripCastsIter : Nat → List Char → List Char
  | 0, rev => rev
  | fuel + 1, rev =>
    match stripCastOnce rev with
    | some rev2 => stripCastsIter fuel rev2
    | none => rev

/-- `_CAST_STRIP_RE.sub("", text)`: substituting the anchored regex
`(::[a-zA-Z_][a-zA-Z0-9_]*\b)+$` with the empty string amounts to
repeatedly removing a trailing `::identifier` cast. -/
def stripCasts (s : String) : String :=
  String.mk (stripCastsIter s.data.length s.data.reverse).reverse

/-- The `time_tokens` set of `_normalize_server_default`. -/
def timeTokens : List String :=
  ["CURRENT_TIMESTAMP", "NOW()", "CURRENT_TIMESTAMP()", "CLOCK_TIMESTAMP", "CLOCK_TIMESTAMP()"]

/-- The `bool_true` set of `_normalize_server_default`. -/
def boolTrueTokens : List String := ["TRUE", "1", squote ++ "TRUE" ++ squote, "(1)"]

/-- The `bool_false` set of `_normalize_server_default`. -/
def boolFalseTokens : List String := ["FALSE", "0", squote ++ "FALSE" ++ squote, "(0)"]

/-- `_normalize_server_default`: `None` stays `None`, empty compiled text
becomes `None`, trailing casts are stripped, and the canonical
timestamp/boolean tokens are substituted (matching on the upper-cased,
apostrophe-stripped text).  The argument is the compiled text of the default
(the `candidate` the source feeds to `_normalize_sql_text`). -/
def normalizeServerDefault : Option String → Option String
  | none => none
  | some raw =>
    let text := trimWs (normalizeSqlText (some raw))
    if text = "" then none
    else
      let text2 := trimWs (stripCasts text)
      let upper := stripSquotes (upperStr text2)
      if timeTokens.contains upper then some "CURRENT_TIMESTAMP"
      else if boolTrueTokens.contains upper then some "TRUE"
      else if boolFalseTokens.contains upper then some "FALSE"
      else some text2

/-- Immutable representation of a schema fingerprint (`SchemaSnapshot`). -/
structure SchemaSnapshot where
  digest : String
  text : String
  tokens : List (String × List String)
deriving DecidableEq

/-- First-match lookup in an association list, the model of Python dict
access (keys are unique by construction wherever this is used). -/
def lookupStr (d : List (String × String)) (k : String) : Option String :=
  match d.find? (fun kv => kv.1 = k) with
  | some kv => some kv.2
  | none => none

/-- Python dict assignment `d[k] = v`: replace the value at the first
occurrence of the key, else append the new entry. -/
def dictAssign (d : List (String × List String)) (k : String) (v : List String) :
    List (String × List String) :=
  match d with
  | [] => [(k, v)]
  | (k0, v0) :: rest => if k0 = k then (k0, v) :: rest else (k0, v0) :: dictAssign rest k v

/-- `table.schema or ""` as used throughout `schema_fingerprint`. -/
def schemaOrEmpty (t : TableInfo) : String := t.schema.getD ""

/-- Sort key of the table loop: `(t.schema or "", t.name)`. -/
def tableKey (t : TableInfo) : List String := [schemaOrEmpty t, t.name]

/-- `table_label`: schema-qualified name without the dangling dot. -/
def tableLabel (t : TableInfo) : String :=
  (if schemaOrEmpty t = "" then "" else schemaOrEmpty t ++ ".") ++ t.name

/-- SQLAlchemy `Table.fullname` for the reflected table. -/
def tableFullname (t : TableInfo) : String :=
  if schemaOrEmpty t = "" then t.name else schemaOrEmpty t ++ "." ++ t.name

/-- Column sort key: the column name. -/
def colKey (c : ColumnInfo) : List String := [c.name]

/-- `sorted(idx.columns, key=name)` mapped to names. -/
def idxColsSorted (i : IndexInfo) : List String := sortStrings i.columns

/-- `",".join(cols)` for an index's sorted column names. -/
def idxColsJoined (i : IndexInfo) : String := String.intercalate "," (idxColsSorted i)

/-- Index sort key: `(0 if unique else 1, ",".join(sorted cols), name)`. -/
def idxSortKey (i : IndexInfo) : List String :=
  [if i.unique then "0" else "1", idxColsJoined i, i.name.getD ""]

/-- The `<unnamed:...>` fallback label for a nameless index. -/
def idxFallbackLabel (i : IndexInfo) : String :=
  "<unnamed:" ++ (if idxColsJoined i = "" then "expr" else idxColsJoined i) ++ ">"

/-- `index_label = raw_index_name or f"<unnamed:...>"`. -/
def idxLabel (i : IndexInfo) : String :=
  match i.name with
  | some n => if n = "" then idxFallbackLabel i else n
  | none => idxFallbackLabel i

/-- `method or ""` (an absent or empty `using` option renders empty). -/
def idxMethodStr (i : IndexInfo) : String := i.method.getD ""

/-- The normalised predicate text (`""` when there is no `where` option). -/
def idxPredText (i : IndexInfo) : String := wsNormalize (i.predicate.getD "")

/-- `opclasses.get(col_name) or ""`. -/
def idxOpclassOf (i : IndexInfo) (col : String) : String := (lookupStr i.opclasses col).getD ""

/-- The per-column index token appended to `column_index_tokens`. -/
def idxColToken (i : IndexInfo) (col : String) : String :=
  String.intercalate ":"
    [idxLabel i, if i.unique then "U" else "N", idxMethodStr i, idxOpclassOf i col, idxPredText i]

/-- `opclass_tokens`: `col:opclass` for every sorted column carrying a
non-empty operator class. -/
def idxOpclassTokens (i : IndexInfo) : List String :=
  (idxColsSorted i).filterMap (fun col =>
    let oc := idxOpclassOf i col
    if oc = "" then none else some (col ++ ":" ++ oc))

/-- The `  IDX :U|N:cols` line appended to the canonical dump. -/
def idxPartsLine (i : IndexInfo) : String :=
  "  IDX :" ++ (if i.unique then "U" else "N") ++ ":" ++ idxColsJoined i

/-- The token tuple stored under `<table>.index.<label>`. -/
def idxTokenValue (i : IndexInfo) : List String :=
  ["INDEX", if i.unique then "UNIQUE" else "NONUNIQUE", idxColsJoined i, idxMethodStr i,
   String.intercalate ";" (sortStrings (idxOpclassTokens i)), idxPredText i]

/-- Signature of a unique constraint: its sorted column names joined. -/
def uqSig (u : List String) : String := String.intercalate "," (sortStrings u)

/-- Sort key of the unique-constraint loop. -/
def uqKey (u : List String) : List String := [uqSig u]

/-- Sort key of the check-constraint loop: the normalised expression. -/
def ckKey (c : String) : List String := [wsNormalize c]

/-- `unique_membership` for one column: the sorted set of `UQ:<signature>`
tokens of the unique constraints containing it. -/
def uqMembership (t : TableInfo) (colName : String) : List String :=
  sortedSet (t.uniqueConstraints.filterMap (fun u =>
    if u.contains colName then some ("UQ:" ++ uqSig u) else none))

/-- `membership_repr`: `PK` membership followed by unique-constraint
membership, `-` when empty. -/
def membershipRepr (t : TableInfo) (colName : String) : String :=
  let toks := (if t.pkColumns.contains colName then ["PK"] else []) ++ uqMembership t colName
  if toks = [] then "-" else String.intercalate "|" toks

/-- The non-empty `ondelete=`/`onupdate=` action fragments of a foreign key
(falsy values are dropped, as in the source). -/
def fkActions (fk : FKInfo) : List String :=
  (match fk.ondelete with
   | some v => if v = "" then [] else ["ondelete=" ++ v]
   | none => []) ++
  (match fk.onupdate with
   | some v => if v = "" then [] else ["onupdate=" ++ v]
   | none => [])

/-- `column.foreign_keys` sorted by `(target fullname, target column)`. -/
def colFksSorted (t : TableInfo) (colName : String) : List FKInfo :=
  sortByKey (fun fk => [fk.targetTable, fk.targetColumn])
    (t.foreignKeys.filter (fun fk => fk.parentColumn == colName))

/-- One `fk_tokens` entry of the column token tuple. -/
def colFkToken (fk : FKInfo) : String :=
  fk.targetTable ++ "." ++ fk.targetColumn ++
    (if fkActions fk = [] then "" else "[" ++ String.intercalate "," (fkActions fk) ++ "]")

/-- `fk_repr` of a column: its foreign-key tokens joined, `-` when empty. -/
def colFkRepr (t : TableInfo) (colName : String) : String :=
  let toks := (colFksSorted t colName).map colFkToken
  if toks = [] then "-" else String.intercalate "|" toks

/-- `index_repr` of a column: the sorted per-column index tokens, `-` when
empty. -/
def colIndexRepr (t : TableInfo) (colName : String) : String :=
  let toks := sortStrings ((sortByKey idxSortKey t.indexes).filterMap (fun i =>
    if (idxColsSorted i).contains colName then some (idxColToken i colName) else none))
  if toks = [] then "-" else String.intercalate "|" toks

/-- The rendered server default of the `  COL` line (`None` appears
verbatim, as Python string interpolation renders it). -/
def colDefaultRepr (c : ColumnInfo) : String :=
  match normalizeServerDefault c.serverDefault with
  | some s => s
  | none => "None"

/-- The `  COL ...` line of the canonical dump. -/
def colPartsLine (c : ColumnInfo) : String :=
  "  COL " ++ c.name ++ " " ++ c.typ ++ " " ++ (if c.nullable then "NULL" else "NOTNULL") ++
    " DEF=" ++ colDefaultRepr c ++ " PKEY=" ++ (if c.primaryKey then "Y" else "N")

/-- `default_text or "__NO_DEFAULT__"` of the column token tuple. -/
def colDefaultToken (c : ColumnInfo) : String :=
  match normalizeServerDefault c.serverDefault with
  | some s => if s = "" then "__NO_DEFAULT__" else s
  | none => "__NO_DEFAULT__"

/-- The column token tuple stored under `<table>.<column>`. -/
def colTokenValue (t : TableInfo) (c : ColumnInfo) : List String :=
  [c.typ, if c.nullable then "NULL" else "NOTNULL", colDefaultToken c,
   membershipRepr t c.name, colFkRepr t c.name, colIndexRepr t c.name]

/-- The `  FK :parent->target(col) [actions]` line (note the `", "` action
separator of the table-level line, unlike the per-column tokens). -/
def fkPartsLine (fk : FKInfo) : String :=
  "  FK :" ++ fk.parentColumn ++ "->" ++ fk.targetTable ++ "(" ++ fk.targetColumn ++ ")" ++
    (if fkActions fk = [] then "" else " [" ++ String.intercalate ", " (fkActions fk) ++ "]")

/-- Table-level foreign-key sort key. -/
def fkSortKey (t : TableInfo) (fk : FKInfo) : List String :=
  [tableFullname t, fk.parentColumn, fk.targetTable, fk.targetColumn]

/-- All canonical-dump lines contributed by one table, in the source's
append order: header, `IDX` lines (sorted index loop), `COL` lines (sorted
column loop), the `PK` line, `UQ` lines, `CK` lines and `FK` lines. -/
def tableParts (t : TableInfo) : List String :=
  ["TABLE " ++ schemaOrEmpty t ++ "." ++ t.name] ++
  ((sortByKey idxSortKey t.indexes).map idxPartsLine) ++
  ((sortByKey colKey t.columns).map colPartsLine) ++
  (if t.pkColumns = [] then [] else ["  PK " ++ String.intercalate "," t.pkColumns]) ++
  ((sortByKey uqKey t.uniqueConstraints).map (fun u => "  UQ :" ++ uqSig u)) ++
  ((sortByKey ckKey t.checkConstraints).map (fun c => "  CK :" ++ wsNormalize c)) ++
  ((sortByKey (fkSortKey t) t.foreignKeys).map fkPartsLine)

/-- The column token-map entries of one table, in sorted column order. -/
def tableColTokens (t : TableInfo) : List (String × List String) :=
  (sortByKey colKey t.columns).map (fun c => (tableLabel t ++ "." ++ c.name, colTokenValue t c))

/-- The `index_tokens` dict of one table: entries keyed by
`<table>.index.<label>`, assigned in sorted index order. -/
def tableIdxTokens (t : TableInfo) : List (String × List String) :=
  ((sortByKey idxSortKey t.indexes).map (fun i =>
    (tableLabel t ++ ".index." ++ idxLabel i, idxTokenValue i))).foldl
    (fun d kv => dictAssign d kv.1 kv.2) []

/-- The `token_map` dict accumulated over all (sorted) tables: per-column
entries during the column loop, index entries at the end of each table. -/
def buildTokenMap (md : MetadataModel) : List (String × List String) :=
  (sortByKey tableKey md).foldl (fun acc t =>
    (tableIdxTokens t).foldl (fun d kv => dictAssign d kv.1 kv.2)
      ((tableColTokens t).foldl (fun d kv => dictAssign d kv.1 kv.2) acc)) []

/-- `schema_fingerprint`: the canonical text (all table parts joined by
newlines over the sorted tables), its digest, and the token map ordered by
key (`OrderedDict(sorted(token_map.items()))`). -/
def schemaFingerprint (md : MetadataModel) : SchemaSnapshot :=
  let text := String.intercalate "\n" (((sortByKey tableKey md).map tableParts).flatten)
  { digest := hashText text
    text := text
    tokens := sortByKey (fun kv => [kv.1]) (buildTokenMap md) }

/-- `hash_text`: SHA-256 hex digest of a text (stand-in, see `hashText`). -/
def hashTextApi (text : String) : String := hashText text

/-- `compare_fingerprints`: digest equality. -/
def compareFingerprints (a b : String) : Bool := a == b

/-- `reflect_metadata`'s schema-list normalisation: the default schema
(`None`) first, then each truthy schema name not already present, in input
order.  `MetaData.reflect` is then invoked once per returned entry, so this
list is exactly the reflection plan. -/
def reflectMetadataSchemas (includeSchemas : List String) : List (Option String) :=
  includeSchemas.foldl
    (fun schemas sc => if sc ≠ "" ∧ ¬ schemas.contains (some sc) then schemas ++ [some sc] else schemas)
    [none]

/-! ### Embedding of `lib/rucio/db/sqla/alembic_validation.py`

The Alembic/SQLAlchemy collaborators (migration executor, reflector,
`is_old_db`, autogenerate diffing, version-table lookup) are abstracted as a
record of operations over an opaque database state `σ`; every executed
Alembic command is additionally recorded in a trace so that temporal
properties can be stated.  The `logger` and `issue_callback` parameters only
mirror the returned issues to the caller's log and are omitted. -/

/-- Structured record describing a validation failure (`Issue`). -/
structure Issue where
  kind : String
  at_revision : String
  path : List String
  detail : String
  fingerprint_before : Option String := none
  fingerprint_after : Option String := none
  fingerprint_diff : Option String := none
deriving DecidableEq

/-- One recorded database-affecting step of a validation run. -/
inductive DbOp where
  | drop
  | upgrade (rev : String)
  | downgrade (rev : String)
  | markerCheck
  | modelCompare
deriving DecidableEq

/-- The external collaborators of the validator over a database state `σ`:
`alembic_cmd.upgrade`/`downgrade`, `_drop_everything`,
`schema_fingerprint`, `is_old_db`, `_autogen_diff_is_empty`'s diffing and
`_database_revision_heads`. -/
structure DBOps (σ : Type) where
  upgrade : String → σ → σ
  downgrade : String → σ → σ
  dropEverything : σ → σ
  fingerprint : σ → SchemaSnapshot
  isOldDB : σ → Bool
  autogenDiffIsEmpty : σ → Bool × String
  databaseRevisionHeads : σ → List String

/-- Run `_alembic_upgrade`, recording the command. -/
def runUpgrade (ops : DBOps σ) (rev : String) : σ × List DbOp → σ × List DbOp
  | (s, tr) => (ops.upgrade rev s, tr ++ [DbOp.upgrade rev])

/-- Run `_alembic_downgrade`, recording the command. -/
def runDowngrade (ops : DBOps σ) (rev : String) : σ × List DbOp → σ × List DbOp
  | (s, tr) => (ops.downgrade rev s, tr ++ [DbOp.downgrade rev])

/-- Run `_drop_everything`, recording the command. -/
def runDrop (ops : DBOps σ) : σ × List DbOp → σ × List DbOp
  | (s, tr) => (ops.dropEverything s, tr ++ [DbOp.drop])

/-- The `_BASE_REVISION` sentinel. -/
def baseRevision : String := "__BASE__"

/-- `_is_base_revision`. -/
def isBaseRevision (revision : String) : Bool := revision == baseRevision

/-- `_display_revision`. -/
def displayRevision (revision : String) : String :=
  if isBaseRevision revision then "base" else revision

/-- `_downgrade_target`. -/
def downgradeTargetOf (revision : String) : String :=
  if isBaseRevision revision then "base" else revision

/-- `_normalize_revision_for_flag`. -/
def normalizeRevisionForFlag : Option String → Option String
  | none => none
  | some revision =>
    if revision = baseRevision then none
    else if lowerStr revision = "base" then none
    else some revision

/-- `_expected_is_old_db`. -/
def expectedIsOldDb (flagRevision : Option String) (codeHead : String) : Bool :=
  match flagRevision with
  | none => false
  | some r => r != codeHead

/-- `_check_is_old_db_state`: compare the probed `is_old_db()` value with the
expected one and build an `is-old-db` issue on mismatch. -/
def checkIsOldDbState (ops : DBOps σ) (expectedRevision : Option String)
    (displayRev stageLabel codeHead : String) (s : σ) : Option Issue :=
  let expectedValue := expectedIsOldDb expectedRevision codeHead
  let actualValue := ops.isOldDB s
  if actualValue != expectedValue then
    some { kind := "is-old-db", at_revision := displayRev, path := [stageLabel],
           detail := "is_old_db() returned " ++ pyBool actualValue ++ " during " ++ stageLabel ++
             "; expected " ++ pyBool expectedValue ++
             ". The database revision markers are inconsistent with the Alembic state." }
  else none

/-- Lines of a text, splitting at newline characters. -/
def splitLinesAux : List Char → List Char → List String
  | [], acc => [String.mk acc.reverse]
  | c :: cs, acc =>
    if c = Char.ofNat 10 then String.mk acc.reverse :: splitLinesAux cs []
    else splitLinesAux cs (c :: acc)

/-- Python `str.splitlines()` for newline-separated canonical dumps. -/
def splitLines (s : String) : List String := splitLinesAux s.data []

/-- Modelled from the spec: `difflib.unified_diff` (Python standard library,
external to the repository) "mirrors the output format produced by familiar
tooling such as git diff" — a deterministic line diff of the two canonical
texts that is empty exactly when the texts are equal.  The model emits the
two `---`/`+++` label lines followed by the removed and added lines. -/
def unifiedDiffLines (beforeText afterText beforeLabel afterLabel : String) : List String :=
  if beforeText = afterText then []
  else
    ["--- " ++ beforeLabel, "+++ " ++ afterLabel] ++
    ((splitLines beforeText).filter (fun l => ¬ (splitLines afterText).contains l)).map
      (fun l => "-" ++ l) ++
    ((splitLines afterText).filter (fun l => ¬ (splitLines beforeText).contains l)).map
      (fun l => "+" ++ l)

/-- `_unified_diff`: the joined diff lines, or the placeholder when the diff
is empty. -/
def unifiedDiff (beforeText afterText beforeLabel afterLabel : String) : String :=
  let joined := String.intercalate "\n" (unifiedDiffLines beforeText afterText beforeLabel afterLabel)
  if joined = "" then "(no textual diff available)" else joined

/-- Python dict `get` over a token map. -/
def lookupTok (m : List (String × List String)) (k : String) : Option (List String) :=
  match m.find? (fun kv => kv.1 = k) with
  | some kv => some kv.2
  | none => none

/-- Python `repr` of an optional token tuple (`None` when absent). -/
def reprOptTok : Option (List String) → String
  | some t => pyReprTuple t
  | none => "None"

/-- Worker of `_first_token_mismatch`: scan the sorted key union and report
the first key whose token tuples differ. -/
def firstTokenMismatchAux (before after : List (String × List String)) :
    List String → Option String
  | [] => none
  | k :: ks =>
    let bt := lookupTok before k
    let tA := lookupTok after k
    if bt = tA then firstTokenMismatchAux before after ks
    else some (k ++ ": before=" ++ reprOptTok bt ++ " after=" ++ reprOptTok tA)

/-- `_first_token_mismatch`. -/
def firstTokenMismatch (before after : List (String × List String)) : Option String :=
  firstTokenMismatchAux before after
    (sortedSet (before.map (fun kv => kv.1) ++ after.map (fun kv => kv.1)))

/-- `_verify_roundtrip`: execute one migration round trip (upgrade then
downgrade, or the inverse), run the optional state checker after each
command, then re-fingerprint and compare digests with the prepared snapshot,
building the rich drift issue on mismatch. -/
def verifyRoundtrip (ops : DBOps σ) (preparedSnapshot : SchemaSnapshot)
    (targetRevision parentRevision downgradeTarget beforeLabel afterLabel issueKind
      issueRevision : String)
    (issuePath : List String) (issueDetailPrefix : String)
    (upgradeThenDowngrade : Bool)
    (stateChecker : Option (String → String → σ → Option Issue))
    (st : σ × List DbOp) : Option Issue × (σ × List DbOp) :=
  let step1 := if upgradeThenDowngrade then runUpgrade ops targetRevision st
               else runDowngrade ops downgradeTarget st
  let check1 : Option Issue :=
    match stateChecker with
    | some f => f (if upgradeThenDowngrade then targetRevision else parentRevision)
                  (if upgradeThenDowngrade then "upgrade" else "downgrade") step1.1
    | none => none
  let step2 := if upgradeThenDowngrade then runDowngrade ops downgradeTarget step1
               else runUpgrade ops targetRevision step1
  let check2 : Option Issue :=
    match stateChecker with
    | some f => f (if upgradeThenDowngrade then parentRevision else targetRevision)
                  (if upgradeThenDowngrade then "downgrade" else "upgrade") step2.1
    | none => none
  let stateIssue : Option Issue := match check1 with
    | some i => some i
    | none => check2
  match stateIssue with
  | some i => (some i, step2)
  | none =>
    let snapBack := ops.fingerprint step2.1
    if snapBack.digest ≠ preparedSnapshot.digest then
      let diffText := unifiedDiff preparedSnapshot.text snapBack.text beforeLabel afterLabel
      let tokenDiff := firstTokenMismatch preparedSnapshot.tokens snapBack.tokens
      let detail0 := issueDetailPrefix ++ "\n  before: " ++ preparedSnapshot.digest ++
        "\n  after : " ++ snapBack.digest
      let detail1 := match tokenDiff with
        | some td => detail0 ++ "\n  first mismatch: " ++ td
        | none => detail0
      (some { kind := issueKind, at_revision := issueRevision, path := issuePath,
              detail := detail1 ++ "\n" ++ diffText,
              fingerprint_before := some preparedSnapshot.text,
              fingerprint_after := some snapBack.text,
              fingerprint_diff := some diffText }, step2)
    else (none, step2)

/-- The `_state_checker` closure built inside `_check_linear_revision_edge`
for a traversal path: probe `is_old_db()` for the revision just reached. -/
def edgePathChecker (ops : DBOps σ) (codeHead pathStr : String)
    (revision action : String) (s : σ) : Option Issue :=
  checkIsOldDbState ops (normalizeRevisionForFlag (some revision)) (displayRevision revision)
    (pathStr ++ " " ++ action ++ " at " ++ displayRevision revision) codeHead s

/-- `_check_linear_revision_edge`: forward round trip (A→B→A), prepare the
child and capture its snapshot, then backward round trip (B→A→B); returns
the collected issues, the child snapshot and the validity flag. -/
def checkLinearRevisionEdge (ops : DBOps σ) (parentRevision : String)
    (parentSnapshot : SchemaSnapshot) (childRevision codeHead : String)
    (st : σ × List DbOp) : (List Issue × SchemaSnapshot × Bool) × (σ × List DbOp) :=
  let displayParent := displayRevision parentRevision
  let displayChild := displayRevision childRevision
  let dTarget := downgradeTargetOf parentRevision
  let path := [displayParent, displayChild, displayParent]
  let pathStr := String.intercalate "->" path
  let fwd := verifyRoundtrip ops parentSnapshot childRevision parentRevision dTarget
    (displayParent ++ " before") (displayParent ++ " after " ++ pathStr) "roundtrip"
    displayParent path
    ("Schema fingerprint after " ++ pathStr ++ " differs from original at " ++ displayParent)
    true (some (edgePathChecker ops codeHead pathStr)) st
  match fwd with
  | (some issue, st1) => (([issue], parentSnapshot, false), st1)
  | (none, st1) =>
    let st2 := runUpgrade ops childRevision st1
    let prepIssue := checkIsOldDbState ops (normalizeRevisionForFlag (some childRevision))
      displayChild ("prepare " ++ displayChild) codeHead st2.1
    let issues1 : List Issue := match prepIssue with
      | some i => [i]
      | none => []
    let childSnapshot := ops.fingerprint st2.1
    let rpath := [displayChild, displayParent, displayChild]
    let rpathStr := String.intercalate "->" rpath
    let bwd := verifyRoundtrip ops childSnapshot childRevision parentRevision dTarget
      (displayChild ++ " before") (displayChild ++ " after " ++ rpathStr) "roundtrip"
      displayChild rpath
      ("Schema fingerprint after " ++ rpathStr ++ " differs from original at " ++ displayChild)
      false (some (edgePathChecker ops codeHead rpathStr)) st2
    match bwd with
    | (some issue2, st3) => ((issues1 ++ [issue2], childSnapshot, false), st3)
    | (none, st3) => ((issues1, childSnapshot, true), st3)

/-! ### Revision graph discovery and the linear-order builder -/

/-- One revision script as enumerated by `ScriptDirectory.walk_revisions`
(head-first order): its identifier and its down revisions (`[]` models a
`None` down revision). -/
structure ScriptRev where
  revision : String
  downRevisions : List String
deriving DecidableEq

/-- Association list modelling the `defaultdict(set)` revision maps; values
keep set semantics (no duplicates) in deterministic insertion order — every
downstream use (`len`, `sorted`, membership) is insensitive to the set's
iteration order. -/
abbrev RevDict := List (String × List String)

/-- Python `d.get(k, ())`. -/
def dictGetD (d : RevDict) (k : String) : List String :=
  match d.find? (fun kv => kv.1 = k) with
  | some kv => kv.2
  | none => []

/-- Python `k in d`. -/
def dictMem (d : RevDict) (k : String) : Bool := (d.find? (fun kv => kv.1 = k)).isSome

/-- Python `d.setdefault(k, set())`. -/
def dictSetdefault (d : RevDict) (k : String) : RevDict :=
  if dictMem d k then d else d ++ [(k, [])]

/-- Python `d[k].add(v)` on a `defaultdict(set)`. -/
def dictAddToSet (d : RevDict) (k v : String) : RevDict :=
  match d with
  | [] => [(k, [v])]
  | (k0, vs) :: rest =>
    if k0 = k then (k0, if vs.contains v then vs else vs ++ [v]) :: rest
    else (k0, vs) :: dictAddToSet rest k v

/-- Python `d[k].update(vs)` on a `defaultdict(set)`. -/
def dictAddAll (d : RevDict) (k : String) (vs : List String) : RevDict :=
  vs.foldl (fun d v => dictAddToSet d k v) d

/-- The down revisions kept by `_discover_revision_graph`'s loop: falsy
entries and the literal (case-insensitive) `"base"` are skipped. -/
def cleanDownRevisions (s : ScriptRev) : List String :=
  s.downRevisions.filter (fun d => d != "" && lowerStr d != "base")

/-- `_discover_revision_graph`: collect parent/child adjacency from the
walked revisions, synthesise the `__BASE__` node as parent of every root,
and return the base-first topological list together with both maps. -/
def discoverRevisionGraph (scriptRevs : List ScriptRev) :
    List String × RevDict × RevDict :=
  let step1 := scriptRevs.foldl
    (fun (acc : RevDict × RevDict × List String) s =>
      let parents := dictSetdefault acc.1 s.revision
      let children := dictSetdefault acc.2.1 s.revision
      let concrete := if acc.2.2.contains s.revision then acc.2.2 else acc.2.2 ++ [s.revision]
      let pc := (cleanDownRevisions s).foldl
        (fun (pc : RevDict × List String) d =>
          (dictAddToSet pc.1 s.revision d, if pc.2.contains d then pc.2 else pc.2 ++ [d]))
        (parents, concrete)
      (pc.1, children, pc.2))
    ([], [], [])
  let parents1 := step1.1
  let children1 := step1.2.1
  let concrete := step1.2.2
  let children2 := parents1.foldl
    (fun ch (kv : String × List String) => kv.2.foldl (fun ch p => dictAddToSet ch p kv.1) ch)
    children1
  let roots := concrete.filter (fun rev => dictGetD parents1 rev = [])
  let children3 := if roots = [] then children2 else dictAddAll children2 baseRevision roots
  let parents2 := if roots = [] then parents1
                  else roots.foldl (fun ps r0 => dictAddToSet ps r0 baseRevision) parents1
  let parents3 := dictSetdefault parents2 baseRevision
  let children4 := dictSetdefault children3 baseRevision
  (baseRevision :: (scriptRevs.map (fun s => s.revision)).reverse, parents3, children4)

/-- `_assert_single_head`: the repository must expose exactly one head and
it must equal the `ALEMBIC_REVISION` constant burned into the code (the
constant's module is outside the validator, so it is a parameter here). -/
def assertSingleHead (heads : List String) (expectedHead : String) : Option Issue :=
  if heads.length ≠ 1 then
    some { kind := "multi-head-repository", at_revision := "repository",
           path := ["repository", "heads"],
           detail := "Expected a single head but repository has " ++ pyNat heads.length ++ ": " ++
             pyReprTuple heads ++ ". Run `alembic merge <rev1> <rev2> ...` to collapse to one head." }
  else
    let head := heads.headD ""
    if head ≠ expectedHead then
      some { kind := "alembicrevision-mismatch", at_revision := head,
             path := ["repository", "ALEMBIC_REVISION"],
             detail := "Repository head " ++ pyReprStr head ++
               " does not match ALEMBIC_REVISION " ++ pyReprStr expectedHead ++
               ". Update alembicrevision.py." }
    else none

/-- The multiple-children scan of `_build_linear_revision_order` (its first
`for rev, cs in children.items()` loop). -/
def childrenCheck : RevDict → Option Issue
  | [] => none
  | (rev, cs) :: rest =>
    if rev = baseRevision then
      if cs.length > 1 then
        some { kind := "multi-branch-repository", at_revision := "repository",
               path := ["repository", "children", "base"],
               detail := "Base revision has multiple children; Rucio requires a single linear branch. Children: " ++
                 pyListRepr (sortStrings cs) ++ "." }
      else childrenCheck rest
    else if cs.length > 1 then
      some { kind := "multi-branch-repository", at_revision := rev,
             path := ["repository", "children", rev],
             detail := "Revision " ++ rev ++ " has multiple children " ++
               pyListRepr (sortStrings cs) ++ ". Rucio enforces a single linear Alembic history." }
    else childrenCheck rest

/-- The multiple-parents scan of `_build_linear_revision_order` (its second
loop; parents equal to the base sentinel are filtered out). -/
def parentsCheck : RevDict → Option Issue
  | [] => none
  | (rev, ps) :: rest =>
    if rev = baseRevision then parentsCheck rest
    else
      let filtered := ps.filter (fun p => p != baseRevision)
      if filtered.length > 1 then
        some { kind := "multi-branch-repository", at_revision := rev,
               path := ["repository", "parents", rev],
               detail := "Revision " ++ rev ++ " has multiple parents " ++
                 pyListRepr (sortStrings filtered) ++ ". Rucio enforces a single linear Alembic history." }
      else parentsCheck rest

/-- Every node mentioned by the children map (keys and values); the walk can
only ever step onto one of these. -/
def revNodes (children : RevDict) : List String :=
  children.map (fun kv => kv.1) ++ (children.map (fun kv => kv.2)).flatten

/-- The `while True` traversal of `_build_linear_revision_order`: follow the
first sorted child from the current node, stopping at a childless node
(`Sum.inl` with the accumulated order) or when the child was already
visited (`Sum.inr` with the revisited node).  The code keeps `visited` as a
set alongside `order`; they always hold the same members, so only `order`
is carried.  The first argument is fuel: every step visits a yet-unvisited
node of the finite children map, so `(revNodes children).length + 1` is
always ample fuel (`linearWalk_adequate` below); `none` reports exhausted
fuel and is unreachable from `buildLinearRevisionOrder`. -/
def linearWalk : Nat → RevDict → List String → String → Option (List String ⊕ String)
  | 0, _, _, _ => none
  | fuel + 1, children, order, current =>
    match sortStrings (dictGetD children current) with
    | [] => some (Sum.inl order)
    | child :: _ =>
      if order.contains child then some (Sum.inr child)
      else linearWalk fuel children (order ++ [child]) child

/-- Membership test used for the Python set comparison `visited != expected`. -/
def sameStringSet (a b : List String) : Bool :=
  a.all (fun x => b.contains x) && b.all (fun x => a.contains x)

/-- `_build_linear_revision_order`: reject branching (multiple children),
merging (multiple parents), cycles (a revisited node during the walk) and
incomplete coverage, otherwise return the base-first linear order. -/
def buildLinearRevisionOrder (topo : List String) (parents children : RevDict) :
    List String × Option Issue :=
  match childrenCheck children with
  | some i => ([], some i)
  | none =>
    match parentsCheck parents with
    | some i => ([], some i)
    | none =>
      match (linearWalk ((revNodes children).length + 1) children [baseRevision]
          baseRevision).getD (Sum.inl []) with
      | Sum.inr child =>
        ([], some { kind := "multi-branch-repository", at_revision := child,
                    path := ["repository", "cycle", child],
                    detail := "Cycle detected while traversing Alembic history at " ++ child ++
                      ". Ensure revisions form a simple chain." })
      | Sum.inl order =>
        if sameStringSet order topo then (order, none)
        else
          ([], some { kind := "multi-branch-repository", at_revision := "repository",
                      path := ["repository", "linear-order"],
                      detail := "Unable to produce linear ordering covering every revision. Unreached revisions: " ++
                        pyListRepr (sortStrings (topo.filter (fun r => ! order.contains r))) ++ "." })

/-- `verify_revision_markers_at_head`: the repository heads, the
`ALEMBIC_REVISION` constant and the database's `alembic_version` content
must all agree on the single head. -/
def verifyRevisionMarkersAtHead (ops : DBOps σ) (repoHeads : List String)
    (expectedHead stageLabel : String) (st : σ × List DbOp) :
    Option Issue × (σ × List DbOp) :=
  if repoHeads.length = 0 then (none, st)
  else if repoHeads.length ≠ 1 then
    (some { kind := "revision-marker-mismatch", at_revision := stageLabel,
            path := [stageLabel, "repository-heads"],
            detail := "Alembic repository reports multiple heads during marker verification. Found " ++
              pyReprTuple repoHeads ++ "." }, st)
  else
    let repoHead := repoHeads.headD ""
    if repoHead ≠ expectedHead then
      (some { kind := "revision-marker-mismatch", at_revision := stageLabel,
              path := [stageLabel, "alembicrevision"],
              detail := "Repository head " ++ pyReprStr repoHead ++
                " does not match ALEMBIC_REVISION " ++ pyReprStr expectedHead ++
                ". Update alembicrevision.py." }, st)
    else
      let st2 := (st.1, st.2 ++ [DbOp.markerCheck])
      let dbHeads := ops.databaseRevisionHeads st.1
      if sameStringSet dbHeads [expectedHead] then (none, st2)
      else
        (some { kind := "revision-marker-mismatch", at_revision := stageLabel,
                path := [stageLabel, "version-table"],
                detail := "alembic_version must contain exactly the code head. Expected \x7b" ++
                  pyReprStr expectedHead ++ "\x7d, found " ++
                  pyListRepr (sortedSet dbHeads) ++ "." }, st2)

/-- The edge walk of `validate_history`: for each child of the linear order
run `_check_linear_revision_edge`; on the first edge issue stop and return
it (the source appends the first element of the edge's issue list and
returns), otherwise continue with the child snapshot as new baseline. -/
def edgeLoop (ops : DBOps σ) (codeHead : String) :
    List String → String → SchemaSnapshot → σ × List DbOp →
    Option Issue × (σ × List DbOp)
  | [], _, _, st => (none, st)
  | child :: rest, current, snap, st =>
    let res := checkLinearRevisionEdge ops current snap child codeHead st
    match res.1.1 with
    | i :: _ => (some i, res.2)
    | [] => edgeLoop ops codeHead rest child res.1.2.1 res.2

/-- `validate_history`: assert the single head, build the linear revision
order, reset the database to base, check `is_old_db` at base, walk every
edge, then upgrade to head, verify the revision markers and compare the
schema against the models via autogeneration.  The returned pair carries the
discovered issues together with the final database state and the trace of
executed database commands (`validate_history` stops after the first
issue). -/
def validateHistory (ops : DBOps σ) (scriptRevs : List ScriptRev) (heads : List String)
    (expectedHead : String) (s0 : σ) : List Issue × (σ × List DbOp) :=
  let st0 : σ × List DbOp := (s0, [])
  match assertSingleHead heads expectedHead with
  | some i => ([i], st0)
  | none =>
    let d := discoverRevisionGraph scriptRevs
    match buildLinearRevisionOrder d.1 d.2.1 d.2.2 with
    | (_, some i) => ([i], st0)
    | (linearOrder, none) =>
      let st1 := runDrop ops st0
      let baseSnapshot := ops.fingerprint st1.1
      match checkIsOldDbState ops (normalizeRevisionForFlag (some baseRevision)) "base"
          "prepare base" expectedHead st1.1 with
      | some i => ([i], st1)
      | none =>
        match edgeLoop ops expectedHead (linearOrder.drop 1) baseRevision baseSnapshot st1 with
        | (some issue, st2) => ([issue], st2)
        | (none, st2) =>
          let st3 := runUpgrade ops "head" st2
          match verifyRevisionMarkersAtHead ops heads expectedHead "head" st3 with
          | (some i, st4) => ([i], st4)
          | (none, st4) =>
            let st5 := (st4.1, st4.2 ++ [DbOp.modelCompare])
            let ag := ops.autogenDiffIsEmpty st4.1
            let displayHead := match linearOrder.getLast? with
              | some r => displayRevision r
              | none => "base"
            if ag.1 then ([], st5)
            else
              ([{ kind := "models-drift", at_revision := displayHead,
                  path := [displayHead, "head"],
                  detail := if ag.2 = "" then
                    "Autogenerate reported differences between DB and models" else ag.2 }], st5)

/-! ### Embedding of `tools/check_alembic_history.py`

The legacy standalone checker.  Its `_autogen_diff_is_empty` takes two
positional parameters but `validate_alembic_history` calls it with three
(`engine, models_md, include_schemas`), so reaching that call raises
`TypeError`; the embedding models the raised exception as an error result
that aborts the run, exactly as the exception propagates to `main` (which
maps it to exit code 2). -/

/-- Issue record of the tools script (no fingerprint payload fields). -/
structure ToolsIssue where
  kind : String
  at_revision : String
  path : List String
  detail : String
deriving DecidableEq

/-- Database collaborators of the tools script (its `_schema_fingerprint`
returns the digest string directly). -/
structure ToolsDBOps (σ : Type) where
  upgrade : String → σ → σ
  downgrade : String → σ → σ
  dropEverything : σ → σ
  fingerprint : σ → String

/-- Outcome of `validate_alembic_history`: a returned issue list, or a
propagated Python exception. -/
inductive ToolsResult where
  | ok (issues : List ToolsIssue)
  | error (msg : String)
deriving DecidableEq

/-- Record an upgrade in the tools run. -/
def toolsRunUpgrade (ops : ToolsDBOps σ) (rev : String) : σ × List DbOp → σ × List DbOp
  | (s, tr) => (ops.upgrade rev s, tr ++ [DbOp.upgrade rev])

/-- Record a downgrade in the tools run. -/
def toolsRunDowngrade (ops : ToolsDBOps σ) (rev : String) : σ × List DbOp → σ × List DbOp
  | (s, tr) => (ops.downgrade rev s, tr ++ [DbOp.downgrade rev])

/-- Record a `_drop_everything` in the tools run. -/
def toolsRunDrop (ops : ToolsDBOps σ) : σ × List DbOp → σ × List DbOp
  | (s, tr) => (ops.dropEverything s, tr ++ [DbOp.drop])

/-- The exception text raised by the miscalled `_autogen_diff_is_empty`. -/
def typeErrorMessage : String :=
  "TypeError: _autogen_diff_is_empty() takes 2 positional arguments but 3 were given"

/-- The tools script's `_discover_revision_graph`: raw parent/child maps
(no filtering, no base synthesis) and the reversed walk order. -/
def toolsDiscoverRevisionGraph (scriptRevs : List ScriptRev) :
    List String × RevDict × RevDict :=
  let parents := scriptRevs.foldl
    (fun ps s => s.downRevisions.foldl (fun ps d => dictAddToSet ps s.revision d) ps) []
  let children := parents.foldl
    (fun ch (kv : String × List String) => kv.2.foldl (fun ch p => dictAddToSet ch p kv.1) ch) []
  ((scriptRevs.map (fun s => s.revision)).reverse, parents, children)

/-- The per-revision child loop of `validate_alembic_history`: the A→B→A
and B→A→B round trips for each sorted child; the boolean result component
is `true` when the function returned early in fail-fast mode. -/
def toolsChildLoop (ops : ToolsDBOps σ) (reportAllDrift : Bool) (r fR : String) :
    List String → List ToolsIssue → σ × List DbOp →
    (List ToolsIssue × Bool) × (σ × List DbOp)
  | [], issues, st => ((issues, false), st)
  | c :: rest, issues, st =>
    let st2 := toolsRunDowngrade ops r (toolsRunUpgrade ops c st)
    let fBack := ops.fingerprint st2.1
    let issues1 := if fBack ≠ fR then
        issues ++ [{ kind := "roundtrip", at_revision := r, path := [r, c, r],
                     detail := "Schema fingerprint after r->c->r differs from original at r" }]
      else issues
    if fBack ≠ fR ∧ ¬ reportAllDrift then ((issues1, true), st2)
    else
      let st4 := toolsRunUpgrade ops c (toolsRunDrop ops st2)
      let fC := ops.fingerprint st4.1
      let st6 := toolsRunUpgrade ops c (toolsRunDowngrade ops r st4)
      let fCBack := ops.fingerprint st6.1
      let issues2 := if fCBack ≠ fC then
          issues1 ++ [{ kind := "roundtrip", at_revision := c, path := [c, r, c],
                        detail := "Schema fingerprint after c->r->c differs from original at c" }]
        else issues1
      if fCBack ≠ fC ∧ ¬ reportAllDrift then ((issues2, true), st6)
      else toolsChildLoop ops reportAllDrift r fR rest issues2 st6

/-- The outer revision loop of `validate_alembic_history`: hard-reset and
upgrade to each revision, run the round trips, then upgrade to head and
reach the ill-typed `_autogen_diff_is_empty(engine, models_md,
include_schemas)` call, which raises `TypeError`. -/
def toolsRevLoop (ops : ToolsDBOps σ) (children : RevDict)
    (reportAllDrift skipRoundtrips : Bool) :
    List String → List ToolsIssue → σ × List DbOp → ToolsResult × (σ × List DbOp)
  | [], issues, st => (ToolsResult.ok issues, st)
  | r :: _, issues, st =>
    let st2 := toolsRunUpgrade ops r (toolsRunDrop ops st)
    if skipRoundtrips then
      (ToolsResult.error typeErrorMessage, toolsRunUpgrade ops "head" st2)
    else
      let cl := toolsChildLoop ops reportAllDrift r (ops.fingerprint st2.1)
        (sortStrings (dictGetD children r)) issues st2
      if cl.1.2 then (ToolsResult.ok cl.1.1, cl.2)
      else (ToolsResult.error typeErrorMessage, toolsRunUpgrade ops "head" cl.2)

/-- `validate_alembic_history` of the tools script. -/
def validateAlembicHistory (ops : ToolsDBOps σ) (scriptRevs : List ScriptRev)
    (reportAllDrift skipRoundtrips : Bool) (s0 : σ) : ToolsResult × (σ × List DbOp) :=
  let d := toolsDiscoverRevisionGraph scriptRevs
  toolsRevLoop ops d.2.2 reportAllDrift skipRoundtrips d.1 [] (s0, [])

/-! ### Specification-side predicates about the revision graph -/

/-- One step of the child relation of the discovered graph. -/
def stepRel (children : RevDict) (x y : String) : Prop := y ∈ dictGetD children x

/-- The graph contains a directed cycle of child steps through some listed
revision (every edge of the discovered graph targets a walked script
revision or a root reached from the base sentinel, so a cycle always passes
through a revision of the topological list). -/
def hasCycle (topo : List String) (children : RevDict) : Prop :=
  ∃ r ∈ topo, Relation.TransGen (stepRel children) r r

/-- Some revision of the topological list cannot be reached from the base
sentinel by child steps. -/
def unreachableRevision (topo : List String) (children : RevDict) : Prop :=
  ∃ r ∈ topo, ¬ Relation.ReflTransGen (stepRel children) baseRevision r

/-- Some node of the children map has two or more children. -/
def hasMultiChild (children : RevDict) : Prop :=
  ∃ p cs, (p, cs) ∈ children ∧ 2 ≤ cs.length

/-- Some non-base node of the parents map has two or more non-base parents. -/
def hasMultiParent (parents : RevDict) : Prop :=
  ∃ r ps, (r, ps) ∈ parents ∧ r ≠ baseRevision ∧
    2 ≤ (ps.filter (fun p => p != baseRevision)).length

/-- The repository's revision graph is not a single linear chain, in any of
the senses the specification enumerates: multiple (or zero) heads, a node
with several children, a node with several parents, a cycle, or an
unreachable revision. -/
def notSingleLinearChain (heads topo : List String) (parents children : RevDict) : Prop :=
  heads.length ≠ 1 ∨ hasMultiChild children ∨ hasMultiParent parents ∨
    hasCycle topo children ∨ unreachableRevision topo children

/-- Well-formed script directory: no revision or down-revision reuses the
synthetic `__BASE__` sentinel (Alembic revision identifiers are generated
hex strings, and the sentinel is chosen not to collide with them). -/
def scriptWF (scriptRevs : List ScriptRev) : Prop :=
  (∀ s ∈ scriptRevs, s.revision ≠ baseRevision) ∧
    (∀ s ∈ scriptRevs, ∀ d ∈ s.downRevisions, d ≠ baseRevision)

/-! ### Specification-side predicates about reflections -/

/-- Two reflected tables describe the identical structural table, merely
enumerating the columns, indexes and constraints (Python sets / dict views)
in different orders; the scalar attributes and the ordered primary-key
column list agree. -/
def TableEquiv (t1 t2 : TableInfo) : Prop :=
  t1.schema = t2.schema ∧ t1.name = t2.name ∧ t1.columns.Perm t2.columns ∧
    t1.pkColumns = t2.pkColumns ∧ t1.uniqueConstraints.Perm t2.uniqueConstraints ∧
    t1.checkConstraints.Perm t2.checkConstraints ∧ t1.foreignKeys.Perm t2.foreignKeys ∧
    t1.indexes.Perm t2.indexes

/-- Two reflections describe the identical structural schema state: the
tables are in bijection (in any enumeration order) with equivalent content. -/
def MetadataEquiv (md1 md2 : MetadataModel) : Prop :=
  ∃ l, List.Forall₂ TableEquiv md1 l ∧ l.Perm md2

/-- Well-formedness of a reflected table.  The column and index parts hold
for every real reflection because the catalog keys those objects: column
names are unique within a table, and index names (hence labels and sort
keys) are unique within a table.  The foreign-key part — no two distinct
foreign keys join the same `(column, target table, target column)` triple —
is a genuine restriction, not a reflection invariant: SQL permits two
differently-named constraints on the same column pair, reflection keeps
both, and on such states the engine's stable sorts tie so the constraints'
enumeration order leaks into the canonical text and digest (the claim C2
counterexample below); order-independence of the fingerprint holds only
under this restriction. -/
def TableWF (t : TableInfo) : Prop :=
  (t.columns.map (fun c => c.name)).Nodup ∧
    (t.indexes.map idxSortKey).Nodup ∧
    (t.indexes.map idxLabel).Nodup ∧
    (t.foreignKeys.map (fun fk => (fk.parentColumn, fk.targetTable, fk.targetColumn))).Nodup

/-- Well-formed reflection: tables are keyed by `(schema, name)` (they live
in the `md.tables` dict) and each table is well-formed. -/
def MetadataWF (md : MetadataModel) : Prop :=
  (md.map tableKey).Nodup ∧ ∀ t ∈ md, TableWF t

/-! ### Concrete fixtures used by witnesses and counterexamples -/

/-- Column `a` of the primary-key-order fixture. -/
def colPkA : ColumnInfo :=
  { name := "a", typ := "VARCHAR(2)", nullable := false, serverDefault := none, primaryKey := true }

/-- Column `b` of the primary-key-order fixture. -/
def colPkB : ColumnInfo :=
  { name := "b", typ := "VARCHAR(2)", nullable := false, serverDefault := none, primaryKey := true }

/-- A one-table reflection whose composite primary key lists `a` before
`b`. -/
def mdPk1 : MetadataModel :=
  [{ schema := none, name := "t", columns := [colPkA, colPkB], pkColumns := ["a", "b"],
     uniqueConstraints := [], checkConstraints := [], foreignKeys := [], indexes := [] }]

/-- The same table reflected with the primary-key columns enumerated in the
opposite order: identical token map, different canonical text. -/
def mdPk2 : MetadataModel :=
  [{ schema := none, name := "t", columns := [colPkA, colPkB], pkColumns := ["b", "a"],
     uniqueConstraints := [], checkConstraints := [], foreignKeys := [], indexes := [] }]

/-- Concrete database behaviour for the C1 counterexample: the schema drifts
from `mdPk1` to `mdPk2` during the first round trip (state counts executed
commands; the fingerprint changes after the first command). -/
def opsC1 : DBOps Nat :=
  { upgrade := fun _ n => n + 1
    downgrade := fun _ n => n + 1
    dropEverything := fun n => n + 1
    fingerprint := fun n => if n = 0 then schemaFingerprint mdPk1 else schemaFingerprint mdPk2
    isOldDB := fun _ => true
    autogenDiffIsEmpty := fun _ => (true, "")
    databaseRevisionHeads := fun _ => [] }

/-- Trivial database behaviour for runs that never touch the database. -/
def opsUnit : DBOps Unit :=
  { upgrade := fun _ _ => ()
    downgrade := fun _ _ => ()
    dropEverything := fun _ => ()
    fingerprint := fun _ => schemaFingerprint []
    isOldDB := fun _ => false
    autogenDiffIsEmpty := fun _ => (true, "")
    databaseRevisionHeads := fun _ => [] }

/-- A merge-shaped repository: revision `m` declares the two parents `p1`
and `p2` (the result of `alembic merge`), so the repository has a single
head `m` but is not a linear chain. -/
def scriptRevsMerge : List ScriptRev :=
  [{ revision := "m", downRevisions := ["p1", "p2"] },
   { revision := "p1", downRevisions := [] },
   { revision := "p2", downRevisions := [] }]

/-- Database behaviour for the C9 witness: `is_old_db()` returns the wrong
value exactly at the state reached by the edge's prepare-child upgrade (the
third command), and the fingerprint is constant so the round trips are
clean. -/
def opsC9 : DBOps Nat :=
  { upgrade := fun _ n => n + 1
    downgrade := fun _ n => n + 1
    dropEverything := fun n => n + 1
    fingerprint := fun _ => schemaFingerprint mdPk1
    isOldDB := fun n => !(n == 3)
    autogenDiffIsEmpty := fun _ => (true, "")
    databaseRevisionHeads := fun _ => [] }

/-- A two-revision repository (`r1` then `c`) for the tools-script runs,
listed in the head-first order `walk_revisions` produces. -/
def revsTools : List ScriptRev :=
  [{ revision := "c", downRevisions := ["r1"] },
   { revision := "r1", downRevisions := [] }]

/-- Tools-script database behaviour whose very first A→B→A round trip
drifts (the fingerprint right after preparing `r1` differs from every later
one). -/
def toolsOpsC6 : ToolsDBOps Nat :=
  { upgrade := fun _ n => n + 1
    downgrade := fun _ n => n + 1
    dropEverything := fun n => n + 1
    fingerprint := fun n => if n = 2 then "A" else "B" }

/-- First column of the order-independence fixture: an integer primary key
with a server default and an outgoing foreign key. -/
def colC2x : ColumnInfo :=
  { name := "x", typ := "INTEGER", nullable := false, serverDefault := some "0",
    primaryKey := true }

/-- Second column of the order-independence fixture. -/
def colC2y : ColumnInfo :=
  { name := "y", typ := "VARCHAR(8)", nullable := true, serverDefault := none,
    primaryKey := false }

/-- The referenced table's only column. -/
def colC2id : ColumnInfo :=
  { name := "id", typ := "INTEGER", nullable := false, serverDefault := none,
    primaryKey := true }

/-- A unique single-column index of the fixture. -/
def idxC2u : IndexInfo :=
  { name := some "ix_u", unique := true, columns := ["y"], method := none, opclasses := [],
    predicate := none }

/-- A non-unique partial two-column index of the fixture. -/
def idxC2n : IndexInfo :=
  { name := some "ix_n", unique := false, columns := ["x", "y"], method := some "btree",
    opclasses := [], predicate := some "x > 0" }

/-- The fixture's foreign key from `acc.x` to `ref.id`. -/
def fkC2 : FKInfo :=
  { parentColumn := "x", targetTable := "ref", targetColumn := "id",
    ondelete := some "CASCADE", onupdate := none }

/-- The `acc` table as one reflection enumerates its collections. -/
def tblC2acc1 : TableInfo :=
  { schema := none, name := "acc", columns := [colC2x, colC2y], pkColumns := ["x"],
    uniqueConstraints := [["y"], ["x", "y"]],
    checkConstraints := ["x > 0", "y IS NOT NULL"],
    foreignKeys := [fkC2], indexes := [idxC2u, idxC2n] }

/-- The `acc` table as a differently-ordered reflection enumerates the same
collections. -/
def tblC2acc2 : TableInfo :=
  { schema := none, name := "acc", columns := [colC2y, colC2x], pkColumns := ["x"],
    uniqueConstraints := [["x", "y"], ["y"]],
    checkConstraints := ["y IS NOT NULL", "x > 0"],
    foreignKeys := [fkC2], indexes := [idxC2n, idxC2u] }

/-- The referenced table of the fixture. -/
def tblC2ref : TableInfo :=
  { schema := none, name := "ref", columns := [colC2id], pkColumns := ["id"],
    uniqueConstraints := [], checkConstraints := [], foreignKeys := [], indexes := [] }

/-- One reflection of the two-table fixture state. -/
def mdC2a : MetadataModel := [tblC2acc1, tblC2ref]

/-- The identical structural state reflected with the tables and every
per-table collection enumerated in another order. -/
def mdC2b : MetadataModel := [tblC2ref, tblC2acc2]

/-- A second foreign key on the same `(column, target table, target column)`
triple as `fkC2`, differing only in its `ondelete` action: two
differently-named constraints on one column pair are legal SQL and both are
reflected. -/
def fkC2dup : FKInfo :=
  { parentColumn := "x", targetTable := "ref", targetColumn := "id",
    ondelete := some "SET NULL", onupdate := none }

/-- A table carrying two foreign keys on the same column pair, in one
enumeration order. -/
def tblC2dupA : TableInfo :=
  { schema := none, name := "acc", columns := [colC2x], pkColumns := ["x"],
    uniqueConstraints := [], checkConstraints := [],
    foreignKeys := [fkC2, fkC2dup], indexes := [] }

/-- The same table with the two tied foreign keys enumerated in the other
order. -/
def tblC2dupB : TableInfo :=
  { schema := none, name := "acc", columns := [colC2x], pkColumns := ["x"],
    uniqueConstraints := [], checkConstraints := [],
    foreignKeys := [fkC2dup, fkC2], indexes := [] }

/-- A token matching the `[a-zA-Z_][a-zA-Z0-9_]*` identifier of the
cast-stripping regex. -/
def isCastIdent (i : String) : Bool :=
  !i.data.isEmpty && i.data.all isWordChar &&
    (match i.data.head? with
     | some c => isIdentStart c
     | none => false)

/-! ### Properties of the embedded orderings and sorts -/

/-- Characters with equal code points are equal. -/
theorem charEqOfToNatEq {a b : Char} (h : a.toNat = b.toNat) : a = b :=
  Char.ext (UInt32.toNat.inj h)

/-- Strings with equal character data are equal. -/
theorem strEqOfDataEq {a b : String} (h : a.data = b.data) : a = b := by
  cases a
  cases b
  exact congrArg String.mk h

/-- `chLt` is irreflexive. -/
theorem chLt_irrefl (l : List Char) : chLt l l = false := by
  induction l with
  | nil => rfl
  | cons a t ih => simp [chLt, ih]

/-- `chLt` is asymmetric. -/
theorem chLt_asymm : ∀ {a b : List Char}, chLt a b = true → chLt b a = false
  | [], [] => by simp [chLt]
  | [], _ :: _ => by simp [chLt]
  | _ :: _, [] => by simp [chLt]
  | x :: xs, y :: ys => by
    by_cases hxy : x = y
    · subst hxy
      simp only [chLt, if_pos rfl]
      exact chLt_asymm
    · simp only [chLt, if_neg hxy, if_neg (Ne.symm hxy), decide_eq_true_eq,
        decide_eq_false_iff_not]
      omega

/-- `chLt` is transitive. -/
theorem chLt_trans : ∀ {a b c : List Char},
    chLt a b = true → chLt b c = true → chLt a c = true
  | [], [], _ => by simp [chLt]
  | [], _ :: _, c => by
    cases c with
    | nil => intro _ h2; simp [chLt] at h2
    | cons z zs => simp [chLt]
  | _ :: _, [], _ => by simp [chLt]
  | x :: xs, y :: ys, c => by
    cases c with
    | nil => intro _ h2; simp [chLt] at h2
    | cons z zs =>
      intro h1 h2
      by_cases hxy : x = y <;> by_cases hyz : y = z
      · subst hxy; subst hyz
        simp only [chLt, if_pos rfl] at h1 h2 ⊢
        exact chLt_trans h1 h2
      · subst hxy
        simpa [chLt, hyz] using h2
      · subst hyz
        simpa [chLt, hxy] using h1
      · simp only [chLt, if_neg hxy, decide_eq_true_eq] at h1
        simp only [chLt, if_neg hyz, decide_eq_true_eq] at h2
        by_cases hxz : x = z
        · subst hxz; omega
        · simp only [chLt, if_neg hxz, decide_eq_true_eq]
          omega

/-- `chLt` is connected: distinct lists compare one way or the other. -/
theorem chLt_connex : ∀ {a b : List Char}, a ≠ b →
    chLt a b = true ∨ chLt b a = true
  | [], [] => fun h => absurd rfl h
  | [], _ :: _ => fun _ => Or.inl (by simp [chLt])
  | _ :: _, [] => fun _ => Or.inr (by simp [chLt])
  | x :: xs, y :: ys => fun h => by
    by_cases hxy : x = y
    · subst hxy
      have hne : xs ≠ ys := fun he => h (by rw [he])
      simpa [chLt] using chLt_connex hne
    · have hn : x.toNat ≠ y.toNat := fun he => hxy (charEqOfToNatEq he)
      simp only [chLt, if_neg hxy, if_neg (Ne.symm hxy), decide_eq_true_eq]
      omega

/-- `strLe` is reflexive. -/
theorem strLe_refl (a : String) : strLe a a = true := by simp [strLe]

/-- `strLe` is total. -/
theorem strLe_total (a b : String) : strLe a b = true ∨ strLe b a = true := by
  by_cases h : a = b
  · subst h; exact Or.inl (strLe_refl a)
  · have hd : a.data ≠ b.data := fun he => h (strEqOfDataEq he)
    rcases chLt_connex hd with h1 | h1
    · exact Or.inl (by simp [strLe, strLt, h1])
    · exact Or.inr (by simp [strLe, strLt, h1])

/-- `strLe` is transitive. -/
theorem strLe_trans {a b c : String} (h1 : strLe a b = true) (h2 : strLe b c = true) :
    strLe a c = true := by
  simp only [strLe, Bool.or_eq_true, beq_iff_eq] at h1 h2 ⊢
  rcases h1 with h1 | h1
  · rcases h2 with h2 | h2
    · exact Or.inl (chLt_trans h1 h2)
    · subst h2; exact Or.inl h1
  · subst h1; exact h2

/-- `strLe` is antisymmetric. -/
theorem strLe_antisymm {a b : String} (h1 : strLe a b = true) (h2 : strLe b a = true) :
    a = b := by
  simp only [strLe, Bool.or_eq_true, beq_iff_eq] at h1 h2
  rcases h1 with h1 | h1
  · rcases h2 with h2 | h2
    · rw [strLt] at h1 h2
      rw [chLt_asymm h1] at h2
      exact absurd h2 (by simp)
    · exact h2.symm
  · exact h1

/-- `keyLe` is reflexive. -/
theorem keyLe_refl (u : List String) : keyLe u u = true := by
  induction u with
  | nil => rfl
  | cons a t ih => simp [keyLe, ih]

/-- `keyLe` is total. -/
theorem keyLe_total : ∀ (u v : List String), keyLe u v = true ∨ keyLe v u = true
  | [], _ => Or.inl (by cases ‹List String› <;> simp [keyLe])
  | _ :: _, [] => Or.inr (by simp [keyLe])
  | a :: as, b :: bs => by
    by_cases hab : a = b
    · subst hab
      simpa [keyLe] using keyLe_total as bs
    · have hd : a.data ≠ b.data := fun he => hab (strEqOfDataEq he)
      rcases chLt_connex hd with h1 | h1
      · exact Or.inl (by simp [keyLe, hab, strLt, h1])
      · exact Or.inr (by simp [keyLe, Ne.symm hab, strLt, h1])

/-- `keyLe` is transitive. -/
theorem keyLe_trans : ∀ {u v w : List String},
    keyLe u v = true → keyLe v w = true → keyLe u w = true
  | [], _, _ => fun _ _ => by simp [keyLe]
  | _ :: _, [], _ => fun h1 _ => by simp [keyLe] at h1
  | _ :: _, _ :: _, [] => fun _ h2 => by simp [keyLe] at h2
  | a :: as, b :: bs, c :: cs => fun h1 h2 => by
    by_cases hab : a = b <;> by_cases hbc : b = c
    · subst hab; subst hbc
      simp only [keyLe, if_pos rfl] at h1 h2 ⊢
      exact keyLe_trans h1 h2
    · subst hab
      simpa [keyLe, hbc] using h2
    · subst hbc
      simpa [keyLe, hab] using h1
    · simp only [keyLe, if_neg hab] at h1
      simp only [keyLe, if_neg hbc] at h2
      by_cases hac : a = c
      · subst hac
        rw [strLt] at h1 h2
        rw [chLt_asymm h1] at h2
        exact absurd h2 (by simp)
      · simp only [keyLe, if_neg hac, strLt]
        rw [strLt] at h1 h2
        exact chLt_trans h1 h2

/-- `keyLe` is antisymmetric. -/
theorem keyLe_antisymm : ∀ {u v : List String},
    keyLe u v = true → keyLe v u = true → u = v
  | [], [] => fun _ _ => rfl
  | [], _ :: _ => fun _ h2 => by simp [keyLe] at h2
  | _ :: _, [] => fun h1 _ => by simp [keyLe] at h1
  | a :: as, b :: bs => fun h1 h2 => by
    by_cases hab : a = b
    · subst hab
      simp only [keyLe, if_pos rfl] at h1 h2
      rw [keyLe_antisymm h1 h2]
    · simp only [keyLe, if_neg hab, if_neg (Ne.symm hab), strLt] at h1 h2
      rw [chLt_asymm h1] at h2
      exact absurd h2 (by simp)

/-- `sortByKey` permutes its input. -/
theorem sortByKey_perm (k : α → List String) (l : List α) : (sortByKey k l).Perm l :=
  List.perm_insertionSort _ l

/-- `sortByKey` sorts by the key order. -/
theorem sortByKey_sorted (k : α → List String) (l : List α) :
    (sortByKey k l).Pairwise (fun a b => keyLe (k a) (k b) = true) := by
  haveI : IsTotal α (fun a b => keyLe (k a) (k b) = true) := ⟨fun a b => keyLe_total (k a) (k b)⟩
  haveI : IsTrans α (fun a b => keyLe (k a) (k b) = true) :=
    ⟨fun _ _ _ h1 h2 => keyLe_trans h1 h2⟩
  exact List.sorted_insertionSort _ l

/-- `sortStrings` permutes its input. -/
theorem sortStrings_perm (l : List String) : (sortStrings l).Perm l :=
  List.perm_insertionSort _ l

/-- `sortStrings` sorts. -/
theorem sortStrings_sorted (l : List String) :
    (sortStrings l).Pairwise (fun a b => strLe a b = true) := by
  haveI : IsTotal String (fun a b => strLe a b = true) := ⟨strLe_total⟩
  haveI : IsTrans String (fun a b => strLe a b = true) := ⟨fun _ _ _ h1 h2 => strLe_trans h1 h2⟩
  exact List.sorted_insertionSort _ l

/-- Two sorted lists that are permutations of one another are equal, as soon
as the order is antisymmetric on the elements involved. -/
theorem sorted_perm_eq {le : α → α → Prop} :
    ∀ {l₁ l₂ : List α}, l₁.Perm l₂ → l₁.Pairwise le → l₂.Pairwise le →
      (∀ a ∈ l₁, ∀ b ∈ l₁, le a b → le b a → a = b) → l₁ = l₂
  | [], l₂, hp, _, _, _ => hp.nil_eq
  | a :: t₁, [], hp, _, _, _ => absurd hp.symm.nil_eq (by simp)
  | a :: t₁, b :: t₂, hp, hs₁, hs₂, anti => by
    have hmem : a ∈ b :: t₂ := hp.subset (List.mem_cons_self a t₁)
    have hmem2 : b ∈ a :: t₁ := hp.symm.subset (List.mem_cons_self b t₂)
    have hab : a = b := by
      rcases List.mem_cons.mp hmem with h | h
      · exact h
      · rcases List.mem_cons.mp hmem2 with h2 | h2
        · exact h2.symm
        · have hle1 : le a b := (List.pairwise_cons.mp hs₁).1 b h2
          have hle2 : le b a := (List.pairwise_cons.mp hs₂).1 a h
          exact anti a (List.mem_cons_self a t₁) b hmem2 hle1 hle2
    subst hab
    have hpt : t₁.Perm t₂ := hp.cons_inv
    have ht := sorted_perm_eq hpt (List.pairwise_cons.mp hs₁).2 (List.pairwise_cons.mp hs₂).2
      (fun x hx y hy => anti x (List.mem_cons_of_mem a hx) y (List.mem_cons_of_mem a hy))
    rw [ht]

/-- Permutations with duplicate-free key sequences have equal key sorts. -/
theorem sortByKey_congr_of_nodup (k : α → List String) {l₁ l₂ : List α}
    (hp : l₁.Perm l₂) (hnd : (l₁.map k).Nodup) : sortByKey k l₁ = sortByKey k l₂ := by
  refine sorted_perm_eq ((sortByKey_perm k l₁).trans (hp.trans (sortByKey_perm k l₂).symm))
    (sortByKey_sorted k l₁) (sortByKey_sorted k l₂) ?_
  intro a ha b hb h1 h2
  have hkey : k a = k b := keyLe_antisymm h1 h2
  exact List.inj_on_of_nodup_map hnd ((sortByKey_perm k l₁).subset ha)
    ((sortByKey_perm k l₁).subset hb) hkey

/-- Permutations have equal string sorts (duplicates included, since the
string order is antisymmetric). -/
theorem sortStrings_congr {l₁ l₂ : List String} (hp : l₁.Perm l₂) :
    sortStrings l₁ = sortStrings l₂ :=
  sorted_perm_eq ((sortStrings_perm l₁).trans (hp.trans (sortStrings_perm l₂).symm))
    (sortStrings_sorted l₁) (sortStrings_sorted l₂)
    (fun _ _ _ _ h1 h2 => strLe_antisymm h1 h2)

/-- Permutations have equal sorted sets. -/
theorem sortedSet_congr {l₁ l₂ : List String} (hp : l₁.Perm l₂) :
    sortedSet l₁ = sortedSet l₂ :=
  sortStrings_congr hp.dedup

/-- Mapping the key over an `orderedInsert` by that key inserts the mapped
key. -/
theorem map_orderedInsert (k : α → List String) (a : α) :
    ∀ m : List α,
      (List.orderedInsert (fun x y => keyLe (k x) (k y) = true) a m).map k =
        List.orderedInsert (fun u v => keyLe u v = true) (k a) (m.map k)
  | [] => rfl
  | b :: m => by
    by_cases h : keyLe (k a) (k b) = true
    · simp [List.orderedInsert, h]
    · simp only [List.orderedInsert, if_neg h, List.map_cons]
      exact congrArg (k b :: .) (map_orderedInsert k a m)

/-- Mapping the key over a key sort sorts the mapped keys. -/
theorem map_sortByKey (k : α → List String) :
    ∀ l : List α, (sortByKey k l).map k =
      List.insertionSort (fun u v => keyLe u v = true) (l.map k)
  | [] => rfl
  | a :: l => by
    show (List.orderedInsert _ a (sortByKey k l)).map k = _
    rw [map_orderedInsert k a (sortByKey k l)]
    rw [map_sortByKey k l]
    rfl

/-! ### Order-independence of the fingerprint engine (claim C2 support) -/

/-- A duplicate-free mapped list stays duplicate-free under any map at least
as fine: equal images under `g` force equal images under `f`. -/
theorem nodup_map_of_finer {f : α → β} {g : α → γ} :
    ∀ {l : List α}, (∀ a ∈ l, ∀ b ∈ l, g a = g b → f a = f b) →
      (l.map f).Nodup → (l.map g).Nodup
  | [], _, _ => List.nodup_nil
  | a :: l, h, hnd => by
    rw [List.map_cons, List.nodup_cons] at hnd ⊢
    refine ⟨?_, nodup_map_of_finer
      (fun x hx y hy => h x (List.mem_cons_of_mem a hx) y (List.mem_cons_of_mem a hy)) hnd.2⟩
    intro hmem
    rcases List.mem_map.mp hmem with ⟨x, hx, hgx⟩
    have hfx : f x = f a := h x (List.mem_cons_of_mem a hx) a (List.mem_cons_self a l) hgx
    exact hnd.1 (hfx ▸ List.mem_map_of_mem f hx)

/-- Sorting lists of keys is permutation-invariant: `keyLe` is a total,
transitive and antisymmetric order on key lists. -/
theorem sortKeys_congr {l₁ l₂ : List (List String)} (hp : l₁.Perm l₂) :
    List.insertionSort (fun u v => keyLe u v = true) l₁ =
      List.insertionSort (fun u v => keyLe u v = true) l₂ := by
  haveI : IsTotal (List String) (fun u v => keyLe u v = true) := ⟨keyLe_total⟩
  haveI : IsTrans (List String) (fun u v => keyLe u v = true) :=
    ⟨fun _ _ _ h1 h2 => keyLe_trans h1 h2⟩
  exact sorted_perm_eq
    ((List.perm_insertionSort _ l₁).trans (hp.trans (List.perm_insertionSort _ l₂).symm))
    (List.sorted_insertionSort _ l₁) (List.sorted_insertionSort _ l₂)
    (fun a _ b _ h1 h2 => keyLe_antisymm h1 h2)

/-- Mapping a function through its own singleton-key sort depends only on
the multiset of elements (duplicates included). -/
theorem map_sortByKey_singleton_congr (f : α → String) {l₁ l₂ : List α} (hp : l₁.Perm l₂) :
    (sortByKey (fun a => [f a]) l₁).map f = (sortByKey (fun a => [f a]) l₂).map f := by
  have hext : ∀ l : List α, (sortByKey (fun a => [f a]) l).map f =
      ((sortByKey (fun a => [f a]) l).map (fun a => [f a])).map (fun ks => ks.headD "") := by
    intro l
    rw [List.map_map]
    exact List.map_congr_left (fun a _ => rfl)
  rw [hext, hext, map_sortByKey, map_sortByKey, sortKeys_congr (hp.map (fun a => [f a]))]

/-- The key image is constant along a `Forall₂` of a key-preserving
relation. -/
theorem forall2_map_eq {R : α → α → Prop} {k : α → β}
    (hk : ∀ a b, R a b → k a = k b) :
    ∀ {l₁ l₂ : List α}, List.Forall₂ R l₁ l₂ → l₁.map k = l₂.map k
  | _, _, List.Forall₂.nil => rfl
  | _, _, List.Forall₂.cons h t => by
    rw [List.map_cons, List.map_cons, hk _ _ h, forall2_map_eq hk t]

/-- Every member of the right-hand list of a `Forall₂` has a related partner
on the left. -/
theorem forall2_exists_left {R : α → α → Prop} :
    ∀ {l₁ l₂ : List α}, List.Forall₂ R l₁ l₂ → ∀ x ∈ l₂, ∃ y ∈ l₁, R y x
  | _, _, List.Forall₂.nil, x, hx => absurd hx (List.not_mem_nil x)
  | _, _, List.Forall₂.cons h t, x, hx => by
    rcases List.mem_cons.mp hx with h1 | h1
    · exact ⟨_, List.mem_cons_self _ _, h1.symm ▸ h⟩
    · rcases forall2_exists_left t x h1 with ⟨y, hy, hR⟩
      exact ⟨y, List.mem_cons_of_mem _ hy, hR⟩

/-- Key sorting respects a key-preserving matching composed with a
permutation, provided the keys are duplicate-free. -/
theorem sortByKey_forall2 {R : α → α → Prop} (k : α → List String)
    (hk : ∀ a b, R a b → k a = k b) {l₁ l₂ l₃ : List α}
    (h13 : List.Forall₂ R l₁ l₃) (h32 : l₃.Perm l₂) (hnd : (l₁.map k).Nodup) :
    List.Forall₂ R (sortByKey k l₁) (sortByKey k l₂) := by
  have hmk : l₁.map k = l₃.map k := forall2_map_eq hk h13
  have hperm : (l₁.map k).Perm (l₂.map k) := hmk.symm ▸ h32.map k
  have hkeq : (sortByKey k l₁).map k = (sortByKey k l₂).map k := by
    rw [map_sortByKey, map_sortByKey]
    exact sortKeys_congr hperm
  have hlen : (sortByKey k l₁).length = (sortByKey k l₂).length := by
    have h := congrArg List.length hkeq
    simpa using h
  rw [List.forall₂_iff_get]
  refine ⟨hlen, ?_⟩
  intro i h1 h2
  have hx2 : (sortByKey k l₂).get ⟨i, h2⟩ ∈ l₂ :=
    (sortByKey_perm k l₂).subset (List.get_mem _ i h2)
  have hx3 : (sortByKey k l₂).get ⟨i, h2⟩ ∈ l₃ := h32.mem_iff.mpr hx2
  rcases forall2_exists_left h13 _ hx3 with ⟨y, hy1, hR⟩
  have hkg : k ((sortByKey k l₁).get ⟨i, h1⟩) = k ((sortByKey k l₂).get ⟨i, h2⟩) := by
    rw [List.get_eq_getElem, List.get_eq_getElem]
    have hq := congrArg (fun l => l[i]?) hkeq
    simp only [List.getElem?_map, List.getElem?_eq_getElem h1,
      List.getElem?_eq_getElem h2] at hq
    simpa using hq
  have hky : k y = k ((sortByKey k l₂).get ⟨i, h2⟩) := hk y _ hR
  have hmem1 : (sortByKey k l₁).get ⟨i, h1⟩ ∈ l₁ :=
    (sortByKey_perm k l₁).subset (List.get_mem _ i h1)
  have heq : (sortByKey k l₁).get ⟨i, h1⟩ = y :=
    List.inj_on_of_nodup_map hnd hmem1 hy1 (by rw [hkg, ← hky])
  rw [heq]
  exact hR

/-- Equivalent tables share their dictionary sort key. -/
theorem tableEquiv_key {t1 t2 : TableInfo} (h : TableEquiv t1 t2) :
    tableKey t1 = tableKey t2 := by
  simp [tableKey, schemaOrEmpty, h.1, h.2.1]

/-- Equivalent tables share their label. -/
theorem tableEquiv_label {t1 t2 : TableInfo} (h : TableEquiv t1 t2) :
    tableLabel t1 = tableLabel t2 := by
  simp [tableLabel, schemaOrEmpty, h.1, h.2.1]

/-- Equivalent tables share their full name. -/
theorem tableEquiv_fullname {t1 t2 : TableInfo} (h : TableEquiv t1 t2) :
    tableFullname t1 = tableFullname t2 := by
  simp [tableFullname, schemaOrEmpty, h.1, h.2.1]

/-- Equivalent well-formed tables sort their columns identically. -/
theorem tableEquiv_sorted_columns {t1 t2 : TableInfo} (h : TableEquiv t1 t2)
    (wf : TableWF t1) : sortByKey colKey t1.columns = sortByKey colKey t2.columns := by
  refine sortByKey_congr_of_nodup colKey h.2.2.1 ?_
  refine nodup_map_of_finer (f := fun c => c.name) (fun a _ b _ hg => ?_) wf.1
  simpa [colKey] using hg

/-- Equivalent well-formed tables sort their indexes identically. -/
theorem tableEquiv_sorted_indexes {t1 t2 : TableInfo} (h : TableEquiv t1 t2)
    (wf : TableWF t1) :
    sortByKey idxSortKey t1.indexes = sortByKey idxSortKey t2.indexes :=
  sortByKey_congr_of_nodup idxSortKey h.2.2.2.2.2.2.2 wf.2.1

/-- Equivalent well-formed tables sort their foreign keys identically. -/
theorem tableEquiv_sorted_fks {t1 t2 : TableInfo} (h : TableEquiv t1 t2)
    (wf : TableWF t1) :
    sortByKey (fkSortKey t1) t1.foreignKeys = sortByKey (fkSortKey t2) t2.foreignKeys := by
  have hfn : fkSortKey t2 = fkSortKey t1 := by
    funext fk
    simp [fkSortKey, tableEquiv_fullname h]
  rw [hfn]
  refine sortByKey_congr_of_nodup _ h.2.2.2.2.2.2.1 ?_
  refine nodup_map_of_finer
    (f := fun fk => (fk.parentColumn, fk.targetTable, fk.targetColumn))
    (fun a _ b _ hg => ?_) wf.2.2.2
  simp only [fkSortKey, List.cons.injEq, and_true] at hg
  obtain ⟨-, h1, h2, h3⟩ := hg
  simp [h1, h2, h3]

/-- Equivalent tables give every column the same unique-constraint
membership. -/
theorem tableEquiv_uqMembership {t1 t2 : TableInfo} (h : TableEquiv t1 t2) (c : String) :
    uqMembership t1 c = uqMembership t2 c :=
  sortedSet_congr (h.2.2.2.2.1.filterMap _)

/-- Equivalent tables give every column the same membership rendering. -/
theorem tableEquiv_membershipRepr {t1 t2 : TableInfo} (h : TableEquiv t1 t2) (c : String) :
    membershipRepr t1 c = membershipRepr t2 c := by
  simp only [membershipRepr, h.2.2.2.1, tableEquiv_uqMembership h c]

/-- Equivalent well-formed tables give every column the same sorted
foreign-key list. -/
theorem tableEquiv_colFksSorted {t1 t2 : TableInfo} (h : TableEquiv t1 t2)
    (wf : TableWF t1) (c : String) : colFksSorted t1 c = colFksSorted t2 c := by
  unfold colFksSorted
  refine sortByKey_congr_of_nodup _ (h.2.2.2.2.2.2.1.filter _) ?_
  have hnd3 : ((t1.foreignKeys.filter (fun fk => fk.parentColumn == c)).map
      (fun fk => (fk.parentColumn, fk.targetTable, fk.targetColumn))).Nodup :=
    List.Nodup.sublist (List.Sublist.map _ (List.filter_sublist _)) wf.2.2.2
  refine nodup_map_of_finer
    (f := fun fk => (fk.parentColumn, fk.targetTable, fk.targetColumn))
    (fun a ha b hb hg => ?_) hnd3
  have hac : a.parentColumn = c := eq_of_beq (List.mem_filter.mp ha).2
  have hbc : b.parentColumn = c := eq_of_beq (List.mem_filter.mp hb).2
  simp only [List.cons.injEq, and_true] at hg
  obtain ⟨h1, h2⟩ := hg
  simp [hac, hbc, h1, h2]

/-- Equivalent well-formed tables give every column the same foreign-key
rendering. -/
theorem tableEquiv_colFkRepr {t1 t2 : TableInfo} (h : TableEquiv t1 t2)
    (wf : TableWF t1) (c : String) : colFkRepr t1 c = colFkRepr t2 c := by
  simp only [colFkRepr, tableEquiv_colFksSorted h wf c]

/-- Equivalent well-formed tables give every column the same index
rendering. -/
theorem tableEquiv_colIndexRepr {t1 t2 : TableInfo} (h : TableEquiv t1 t2)
    (wf : TableWF t1) (c : String) : colIndexRepr t1 c = colIndexRepr t2 c := by
  simp only [colIndexRepr, tableEquiv_sorted_indexes h wf]

/-- Equivalent well-formed tables give every column the same token tuple. -/
theorem tableEquiv_colTokenValue {t1 t2 : TableInfo} (h : TableEquiv t1 t2)
    (wf : TableWF t1) (c : ColumnInfo) : colTokenValue t1 c = colTokenValue t2 c := by
  simp only [colTokenValue, tableEquiv_membershipRepr h, tableEquiv_colFkRepr h wf,
    tableEquiv_colIndexRepr h wf]

/-- Equivalent tables emit the same sorted unique-constraint lines. -/
theorem tableEquiv_uqLines {t1 t2 : TableInfo} (h : TableEquiv t1 t2) :
    (sortByKey uqKey t1.uniqueConstraints).map (fun u => "  UQ :" ++ uqSig u) =
      (sortByKey uqKey t2.uniqueConstraints).map (fun u => "  UQ :" ++ uqSig u) := by
  have h0 : (sortByKey uqKey t1.uniqueConstraints).map uqSig =
      (sortByKey uqKey t2.uniqueConstraints).map uqSig :=
    map_sortByKey_singleton_congr uqSig h.2.2.2.2.1
  have hfac : ∀ l : List (List String),
      (sortByKey uqKey l).map (fun u => "  UQ :" ++ uqSig u) =
        ((sortByKey uqKey l).map uqSig).map (fun s => "  UQ :" ++ s) := by
    intro l
    rw [List.map_map]
    exact List.map_congr_left (fun a _ => rfl)
  rw [hfac, hfac, h0]

/-- Equivalent tables emit the same sorted check-constraint lines. -/
theorem tableEquiv_ckLines {t1 t2 : TableInfo} (h : TableEquiv t1 t2) :
    (sortByKey ckKey t1.checkConstraints).map (fun c => "  CK :" ++ wsNormalize c) =
      (sortByKey ckKey t2.checkConstraints).map (fun c => "  CK :" ++ wsNormalize c) := by
  have h0 : (sortByKey ckKey t1.checkConstraints).map wsNormalize =
      (sortByKey ckKey t2.checkConstraints).map wsNormalize :=
    map_sortByKey_singleton_congr wsNormalize h.2.2.2.2.2.1
  have hfac : ∀ l : List String,
      (sortByKey ckKey l).map (fun c => "  CK :" ++ wsNormalize c) =
        ((sortByKey ckKey l).map wsNormalize).map (fun s => "  CK :" ++ s) := by
    intro l
    rw [List.map_map]
    exact List.map_congr_left (fun a _ => rfl)
  rw [hfac, hfac, h0]

/-- Equivalent well-formed tables contribute identical canonical-dump
lines. -/
theorem tableEquiv_parts {t1 t2 : TableInfo} (h : TableEquiv t1 t2) (wf : TableWF t1) :
    tableParts t1 = tableParts t2 := by
  have hs : schemaOrEmpty t1 = schemaOrEmpty t2 := by simp [schemaOrEmpty, h.1]
  simp only [tableParts, hs, h.2.1, h.2.2.2.1, tableEquiv_sorted_indexes h wf,
    tableEquiv_sorted_columns h wf, tableEquiv_sorted_fks h wf, tableEquiv_uqLines h,
    tableEquiv_ckLines h]

/-- Equivalent well-formed tables produce identical column token entries. -/
theorem tableEquiv_colTokens {t1 t2 : TableInfo} (h : TableEquiv t1 t2) (wf : TableWF t1) :
    tableColTokens t1 = tableColTokens t2 := by
  simp only [tableColTokens, tableEquiv_sorted_columns h wf, tableEquiv_label h,
    tableEquiv_colTokenValue h wf]

/-- Equivalent well-formed tables produce identical index token entries. -/
theorem tableEquiv_idxTokens {t1 t2 : TableInfo} (h : TableEquiv t1 t2) (wf : TableWF t1) :
    tableIdxTokens t1 = tableIdxTokens t2 := by
  simp only [tableIdxTokens, tableEquiv_sorted_indexes h wf, tableEquiv_label h]

/-- Matched table lists contribute identical canonical-dump line lists. -/
theorem parts_map_congr : ∀ {l1 l2 : List TableInfo}, List.Forall₂ TableEquiv l1 l2 →
    (∀ t ∈ l1, TableWF t) → l1.map tableParts = l2.map tableParts
  | _, _, List.Forall₂.nil, _ => rfl
  | _, _, List.Forall₂.cons hR hF, hwf => by
    rw [List.map_cons, List.map_cons,
      tableEquiv_parts hR (hwf _ (List.mem_cons_self _ _)),
      parts_map_congr hF (fun t ht => hwf t (List.mem_cons_of_mem _ ht))]

/-- Matched table lists accumulate identical token maps. -/
theorem tokenFold_congr : ∀ {l1 l2 : List TableInfo}, List.Forall₂ TableEquiv l1 l2 →
    (∀ t ∈ l1, TableWF t) → ∀ acc : List (String × List String),
      l1.foldl (fun acc t => (tableIdxTokens t).foldl (fun d kv => dictAssign d kv.1 kv.2)
        ((tableColTokens t).foldl (fun d kv => dictAssign d kv.1 kv.2) acc)) acc =
      l2.foldl (fun acc t => (tableIdxTokens t).foldl (fun d kv => dictAssign d kv.1 kv.2)
        ((tableColTokens t).foldl (fun d kv => dictAssign d kv.1 kv.2) acc)) acc
  | _, _, List.Forall₂.nil, _, _ => rfl
  | _, _, List.Forall₂.cons hR hF, hwf, acc => by
    simp only [List.foldl_cons]
    rw [tableEquiv_colTokens hR (hwf _ (List.mem_cons_self _ _)),
      tableEquiv_idxTokens hR (hwf _ (List.mem_cons_self _ _))]
    exact tokenFold_congr hF (fun t ht => hwf t (List.mem_cons_of_mem _ ht)) _

/-! ### Lemmas about the linear-order builder's scans -/

/-- Every issue emitted by the children scan is a `multi-branch-repository`
issue. -/
theorem childrenCheck_kind : ∀ {d : RevDict} {i : Issue},
    childrenCheck d = some i → i.kind = "multi-branch-repository"
  | [], _, h => by simp [childrenCheck] at h
  | (rev, cs) :: rest, i, h => by
    by_cases hb : rev = baseRevision
    · by_cases hlen : cs.length > 1
      · simp only [childrenCheck, if_pos hb, if_pos hlen, Option.some.injEq] at h
        rw [← h]
      · simp only [childrenCheck, if_pos hb, if_neg hlen] at h
        exact childrenCheck_kind h
    · by_cases hlen : cs.length > 1
      · simp only [childrenCheck, if_neg hb, if_pos hlen, Option.some.injEq] at h
        rw [← h]
      · simp only [childrenCheck, if_neg hb, if_neg hlen] at h
        exact childrenCheck_kind h

/-- A clean children scan bounds every child set by one. -/
theorem childrenCheck_none : ∀ {d : RevDict}, childrenCheck d = none →
    ∀ p cs, (p, cs) ∈ d → cs.length ≤ 1
  | [], _, p, cs, hm => by simp at hm
  | (rev, cs0) :: rest, h, p, cs, hm => by
    have hstep : childrenCheck rest = none ∧ cs0.length ≤ 1 := by
      by_cases hb : rev = baseRevision
      · by_cases hlen : cs0.length > 1
        · simp [childrenCheck, if_pos hb, if_pos hlen] at h
        · exact ⟨by simpa [childrenCheck, if_pos hb, if_neg hlen] using h, by omega⟩
      · by_cases hlen : cs0.length > 1
        · simp [childrenCheck, if_neg hb, if_pos hlen] at h
        · exact ⟨by simpa [childrenCheck, if_neg hb, if_neg hlen] using h, by omega⟩
    rcases List.mem_cons.mp hm with hm | hm
    · cases hm
      exact hstep.2
    · exact childrenCheck_none hstep.1 p cs hm

/-- Every issue emitted by the parents scan is a `multi-branch-repository`
issue. -/
theorem parentsCheck_kind : ∀ {d : RevDict} {i : Issue},
    parentsCheck d = some i → i.kind = "multi-branch-repository"
  | [], _, h => by simp [parentsCheck] at h
  | (rev, ps) :: rest, i, h => by
    by_cases hb : rev = baseRevision
    · simp only [parentsCheck, if_pos hb] at h
      exact parentsCheck_kind h
    · by_cases hlen : (ps.filter (fun p => p != baseRevision)).length > 1
      · simp only [parentsCheck, if_neg hb, if_pos hlen, Option.some.injEq] at h
        rw [← h]
      · simp only [parentsCheck, if_neg hb, if_neg hlen] at h
        exact parentsCheck_kind h

/-- A clean parents scan bounds every non-base parent set by one. -/
theorem parentsCheck_none : ∀ {d : RevDict}, parentsCheck d = none →
    ∀ r ps, (r, ps) ∈ d → r ≠ baseRevision →
      (ps.filter (fun p => p != baseRevision)).length ≤ 1
  | [], _, r, ps, hm => by simp at hm
  | (rev, ps0) :: rest, h, r, ps, hm => by
    intro hrb
    have hstep : parentsCheck rest = none ∧
        (rev ≠ baseRevision → (ps0.filter (fun p => p != baseRevision)).length ≤ 1) := by
      by_cases hb : rev = baseRevision
      · exact ⟨by simpa [parentsCheck, if_pos hb] using h, fun hc => absurd hb hc⟩
      · by_cases hlen : (ps0.filter (fun p => p != baseRevision)).length > 1
        · simp [parentsCheck, if_neg hb, if_pos hlen] at h
        · exact ⟨by simpa [parentsCheck, if_neg hb, if_neg hlen] using h, fun _ => by omega⟩
    rcases List.mem_cons.mp hm with hm | hm
    · cases hm
      exact hstep.2 hrb
    · exact parentsCheck_none hstep.1 r ps hm hrb

/-- The builder propagates a children-scan issue. -/
theorem buildLinear_of_childrenCheck {topo : List String} {parents children : RevDict}
    {i : Issue} (h : childrenCheck children = some i) :
    buildLinearRevisionOrder topo parents children = ([], some i) := by
  unfold buildLinearRevisionOrder
  rw [h]

/-- The builder propagates a parents-scan issue. -/
theorem buildLinear_of_parentsCheck {topo : List String} {parents children : RevDict}
    {i : Issue} (hc : childrenCheck children = none) (h : parentsCheck parents = some i) :
    buildLinearRevisionOrder topo parents children = ([], some i) := by
  unfold buildLinearRevisionOrder
  rw [hc, h]

/-! ### Completeness of the linear-order builder (claim C7 support) -/

/-- Bool membership test agrees with membership. -/
theorem contains_iff_mem (l : List String) (u : String) : l.contains u = true ↔ u ∈ l := by
  simp [List.contains, List.elem_eq_mem]

/-- A passing head check means exactly one head, equal to the expected
marker. -/
theorem assertSingleHead_none {heads : List String} {e : String}
    (h : assertSingleHead heads e = none) :
    heads.length = 1 ∧ heads.headD "" = e := by
  simp only [assertSingleHead] at h
  by_cases h1 : heads.length ≠ 1
  · rw [if_pos h1] at h
    exact absurd h (by simp)
  · rw [if_neg h1] at h
    by_cases h2 : ¬ heads.headD "" = e
    · rw [if_pos h2] at h
      exact absurd h (by simp)
    · exact ⟨not_ne_iff.mp h1, not_not.mp h2⟩

/-- Every issue of the head check is a multi-head issue or a marker
mismatch. -/
theorem assertSingleHead_kind {heads : List String} {e : String} {i : Issue}
    (h : assertSingleHead heads e = some i) :
    i.kind = "multi-head-repository" ∨ i.kind = "alembicrevision-mismatch" := by
  simp only [assertSingleHead] at h
  by_cases h1 : heads.length ≠ 1
  · rw [if_pos h1] at h
    exact Or.inl (by rw [← Option.some.inj h])
  · rw [if_neg h1] at h
    by_cases h2 : ¬ heads.headD "" = e
    · rw [if_pos h2] at h
      exact Or.inr (by rw [← Option.some.inj h])
    · rw [if_neg h2] at h
      exact absurd h (by simp)

/-- The Python set equality implies mutual membership. -/
theorem sameStringSet_mem {a b : List String} (h : sameStringSet a b = true) :
    (∀ x ∈ a, x ∈ b) ∧ (∀ x ∈ b, x ∈ a) := by
  unfold sameStringSet at h
  rw [Bool.and_eq_true] at h
  constructor
  · intro x hx
    exact (contains_iff_mem b x).mp ((List.all_eq_true.mp h.1) x hx)
  · intro x hx
    exact (contains_iff_mem a x).mp ((List.all_eq_true.mp h.2) x hx)

/-- `sortStrings` is the identity on lists of at most one element. -/
theorem sortStrings_le_one : ∀ {l : List String}, l.length ≤ 1 → sortStrings l = l
  | [], _ => rfl
  | [_], _ => rfl
  | _ :: _ :: _, h => by simp at h

/-- A children map that passed the children scan bounds every lookup by one
child. -/
theorem childrenNone_bound {children : RevDict} (h : childrenCheck children = none) :
    ∀ x, (dictGetD children x).length ≤ 1 := by
  intro x
  rcases hf : children.find? (fun kv => kv.1 = x) with _ | kv
  · simp [dictGetD, hf]
  · have hmem : kv ∈ children := List.mem_of_find?_eq_some hf
    have hb := childrenCheck_none h kv.1 kv.2 (by simpa using hmem)
    simpa [dictGetD, hf] using hb

/-- Specification of a successful `linearWalk` under the single-child bound:
the resulting order is duplicate-free, each position's child set is exactly
the next position, the final node is childless, and every element lies in
the starting order or is reachable from the starting node. -/
theorem linearWalk_inl_spec {children : RevDict}
    (H1 : ∀ x, (dictGetD children x).length ≤ 1) :
    ∀ (fuel : Nat) (order : List String) (current : String) (result : List String),
      linearWalk fuel children order current = some (Sum.inl result) →
      (∃ pre, order = pre ++ [current]) → order.Nodup →
      (∀ i a z, order[i]? = some a → order[i + 1]? = some z → dictGetD children a = [z]) →
      (result.Nodup ∧
        (∀ i a z, result[i]? = some a → result[i + 1]? = some z →
          dictGetD children a = [z]) ∧
        (∃ pre2 last2, result = pre2 ++ [last2] ∧ dictGetD children last2 = []) ∧
        (∀ x ∈ result, x ∈ order ∨ Relation.ReflTransGen (stepRel children) current x))
  | 0, order, current, result, h, _, _, _ => by simp [linearWalk] at h
  | fuel + 1, order, current, result, h, hlast, hnd, hex => by
    rcases hl1 : dictGetD children current with _ | ⟨y, rest⟩
    · have hs : sortStrings (dictGetD children current) = [] := by rw [hl1]; rfl
      simp only [linearWalk, hs] at h
      obtain rfl : order = result := by simpa using h
      obtain ⟨pre, hpre⟩ := hlast
      exact ⟨hnd, hex, ⟨pre, current, hpre, hl1⟩, fun x hx => Or.inl hx⟩
    · have hrest : rest = [] := by
        have hb := H1 current
        rw [hl1] at hb
        simpa using hb
      subst hrest
      have hs : sortStrings (dictGetD children current) = [y] := by rw [hl1]; rfl
      simp only [linearWalk, hs] at h
      have hstep : stepRel children current y := by
        simp [stepRel, hl1]
      by_cases hy : order.contains y = true
      · rw [if_pos hy] at h
        exact absurd h (by simp)
      · rw [if_neg hy] at h
        have hymem : y ∉ order := fun hm => hy ((contains_iff_mem order y).mpr hm)
        obtain ⟨pre, hpre⟩ := hlast
        have hnd2 : (order ++ [y]).Nodup := by
          rw [List.nodup_append]
          exact ⟨hnd, List.nodup_singleton y, List.disjoint_singleton.mpr hymem⟩
        have hex2 : ∀ i a z, (order ++ [y])[i]? = some a → (order ++ [y])[i + 1]? = some z →
            dictGetD children a = [z] := by
          intro i a z ha hz
          by_cases hi1 : i + 1 < order.length
          · rw [List.getElem?_append, if_pos (by omega)] at ha
            rw [List.getElem?_append, if_pos hi1] at hz
            exact hex i a z ha hz
          · by_cases hi0 : i < order.length
            · have hieq : i + 1 = order.length := by omega
              rw [List.getElem?_append, if_pos hi0] at ha
              have hacur : a = current := by
                have hip : i = pre.length := by
                  rw [hpre] at hieq
                  simp only [List.length_append, List.length_singleton] at hieq
                  omega
                rw [hpre, hip, List.getElem?_append_right (le_refl _)] at ha
                simpa using ha.symm
              have hzy : z = y := by
                rw [List.getElem?_append_right (by omega)] at hz
                have : i + 1 - order.length = 0 := by omega
                rw [this] at hz
                simpa using hz.symm
              rw [hacur, hzy, hl1]
            · rw [List.getElem?_append_right (by omega)] at hz
              have hzn : ([y] : List String)[i + 1 - order.length]? = none :=
                List.getElem?_eq_none (by simp; omega)
              rw [hzn] at hz
              exact absurd hz (by simp)
        have ih := linearWalk_inl_spec H1 fuel (order ++ [y]) y result h
          ⟨order, rfl⟩ hnd2 hex2
        refine ⟨ih.1, ih.2.1, ih.2.2.1, ?_⟩
        intro x hx
        rcases ih.2.2.2 x hx with hxo | hxr
        · rcases List.mem_append.mp hxo with hxo | hxo
          · exact Or.inl hxo
          · have hxy : x = y := by simpa using hxo
            exact Or.inr (hxy ▸ Relation.ReflTransGen.single hstep)
        · exact Or.inr (Relation.ReflTransGen.head hstep hxr)

/-- The step relation moves strictly forward along a walk result, so no
member of the result lies on a cycle. -/
theorem walk_no_cycle {children : RevDict} {result : List String}
    (hnd : result.Nodup)
    (hex : ∀ i a z, result[i]? = some a → result[i + 1]? = some z →
      dictGetD children a = [z])
    (hlast : ∃ pre2 last2, result = pre2 ++ [last2] ∧ dictGetD children last2 = []) :
    ∀ r ∈ result, ¬ Relation.TransGen (stepRel children) r r := by
  obtain ⟨pre2, last2, hres, hemp⟩ := hlast
  have hstep : ∀ i a z, result[i]? = some a → stepRel children a z →
      result[i + 1]? = some z := by
    intro i a z ha hs
    rcases hz : result[i + 1]? with _ | w
    · have hi : i < result.length := (List.getElem?_eq_some.mp ha).1
      have hi1 : result.length ≤ i + 1 := by
        by_contra hcon
        rw [List.getElem?_eq_some.mpr ⟨by omega, rfl⟩] at hz
        exact absurd hz (by simp)
      have hip : i = pre2.length := by
        have : result.length = pre2.length + 1 := by simp [hres]
        omega
      have halast : a = last2 := by
        rw [hres, hip, List.getElem?_append_right (le_refl _)] at ha
        simpa using ha.symm
      have hs2 : z ∈ dictGetD children last2 := halast ▸ hs
      rw [hemp] at hs2
      exact absurd hs2 (List.not_mem_nil z)
    · have hzw : z = w := by
        have hchild := hex i a w ha hz
        have hs2 : z ∈ dictGetD children a := hs
        rw [hchild] at hs2
        simpa using hs2
      rw [hzw]
  have hmono : ∀ a b, Relation.TransGen (stepRel children) a b →
      ∀ i : Nat, result[i]? = some a → ∃ j : Nat, i < j ∧ result[j]? = some b := by
    intro a b ht
    induction ht with
    | single hs =>
      intro i hi
      exact ⟨i + 1, by omega, hstep i _ _ hi hs⟩
    | tail ht2 hs ih =>
      intro i hi
      rcases ih i hi with ⟨j, hij, hj⟩
      exact ⟨j + 1, by omega, hstep j _ _ hj hs⟩
  intro r hr hcyc
  rcases List.mem_iff_getElem?.mp hr with ⟨i, hi⟩
  rcases hmono r r hcyc i hi with ⟨j, hij, hj⟩
  rcases List.getElem?_eq_some.mp hi with ⟨hi2, hieq⟩
  rcases List.getElem?_eq_some.mp hj with ⟨hj2, hjeq⟩
  have : i = j := (List.Nodup.getElem_inj_iff hnd).mp (hieq.trans hjeq.symm)
  omega

/-- A successful linear-order build certifies the discovered graph linear:
no branching, no merging, no cycle through a listed revision, and full
coverage of the topological list. -/
theorem buildLinear_none_linear {topo order : List String} {parents children : RevDict}
    (h : buildLinearRevisionOrder topo parents children = (order, none)) :
    ¬ hasMultiChild children ∧ ¬ hasMultiParent parents ∧
      ¬ hasCycle topo children ∧ ¬ unreachableRevision topo children := by
  have hcc : childrenCheck children = none := by
    rcases h2 : childrenCheck children with _ | i
    · rfl
    · have h3 : ([], some i) = (order, (none : Option Issue)) :=
        (buildLinear_of_childrenCheck h2).symm.trans h
      exact absurd (congrArg Prod.snd h3) (by simp)
  have hpc : parentsCheck parents = none := by
    rcases h2 : parentsCheck parents with _ | i
    · rfl
    · have h3 : ([], some i) = (order, (none : Option Issue)) :=
        (buildLinear_of_parentsCheck hcc h2).symm.trans h
      exact absurd (congrArg Prod.snd h3) (by simp)
  have hmc : ¬ hasMultiChild children := by
    rintro ⟨p, cs, hm, hlen⟩
    have := childrenCheck_none hcc p cs hm
    omega
  have hmp : ¬ hasMultiParent parents := by
    rintro ⟨r, ps, hm, hrb, hlen⟩
    have := parentsCheck_none hpc r ps hm hrb
    omega
  have H1 := childrenNone_bound hcc
  unfold buildLinearRevisionOrder at h
  rw [hcc, hpc] at h
  rcases hw : linearWalk ((revNodes children).length + 1) children [baseRevision]
      baseRevision with _ | s
  · rw [hw] at h
    simp only [Option.getD_none] at h
    by_cases hss : sameStringSet ([] : List String) topo = true
    · have hsub := (sameStringSet_mem hss).2
      refine ⟨hmc, hmp, ?_, ?_⟩
      · rintro ⟨r, hrt, -⟩
        exact absurd (hsub r hrt) (List.not_mem_nil r)
      · rintro ⟨r, hrt, -⟩
        exact absurd (hsub r hrt) (List.not_mem_nil r)
    · rw [if_neg hss] at h
      exact absurd (congrArg Prod.snd h) (by simp)
  · rcases s with res | c
    · rw [hw] at h
      simp only [Option.getD_some] at h
      by_cases hss : sameStringSet res topo = true
      · have hsub := (sameStringSet_mem hss).2
        have hex0 : ∀ i a z, ([baseRevision] : List String)[i]? = some a →
            ([baseRevision] : List String)[i + 1]? = some z →
            dictGetD children a = [z] := by
          intro i a z ha hz
          simp at hz
        have spec := linearWalk_inl_spec H1 ((revNodes children).length + 1) [baseRevision]
          baseRevision res hw ⟨[], rfl⟩ (List.nodup_singleton _) hex0
        refine ⟨hmc, hmp, ?_, ?_⟩
        · rintro ⟨r, hrt, hcyc⟩
          exact walk_no_cycle spec.1 spec.2.1 spec.2.2.1 r (hsub r hrt) hcyc
        · rintro ⟨r, hrt, hnr⟩
          rcases spec.2.2.2 r (hsub r hrt) with hro | hrr
          · have hrb : r = baseRevision := by simpa using hro
            exact hnr (hrb ▸ Relation.ReflTransGen.refl)
          · exact hnr hrr
      · rw [if_neg hss] at h
        exact absurd (congrArg Prod.snd h) (by simp)
    · rw [hw] at h
      simp only [Option.getD_some] at h
      exact absurd (congrArg Prod.snd h) (by simp)

/-- Every issue the linear-order builder emits is a multi-branch issue. -/
theorem buildLinear_some_kind {topo order : List String} {parents children : RevDict}
    {i : Issue} (h : buildLinearRevisionOrder topo parents children = (order, some i)) :
    i.kind = "multi-branch-repository" := by
  rcases hcc : childrenCheck children with _ | i2
  · rcases hpc : parentsCheck parents with _ | i3
    · unfold buildLinearRevisionOrder at h
      rw [hcc, hpc] at h
      rcases hw : linearWalk ((revNodes children).length + 1) children [baseRevision]
          baseRevision with _ | s
      · rw [hw] at h
        simp only [Option.getD_none] at h
        by_cases hss : sameStringSet ([] : List String) topo = true
        · rw [if_pos hss] at h
          exact absurd (congrArg Prod.snd h) (by simp)
        · rw [if_neg hss] at h
          rw [← Option.some.inj (congrArg Prod.snd h)]
      · rcases s with res | c
        · rw [hw] at h
          simp only [Option.getD_some] at h
          by_cases hss : sameStringSet res topo = true
          · rw [if_pos hss] at h
            exact absurd (congrArg Prod.snd h) (by simp)
          · rw [if_neg hss] at h
            rw [← Option.some.inj (congrArg Prod.snd h)]
        · rw [hw] at h
          simp only [Option.getD_some] at h
          rw [← Option.some.inj (congrArg Prod.snd h)]
    · have h3 : ([], some i3) = (order, some i) :=
        (buildLinear_of_parentsCheck hcc hpc).symm.trans h
      rw [← Option.some.inj (congrArg Prod.snd h3)]
      exact parentsCheck_kind hpc
  · have h3 : ([], some i2) = (order, some i) :=
      (buildLinear_of_childrenCheck hcc).symm.trans h
    rw [← Option.some.inj (congrArg Prod.snd h3)]
    exact childrenCheck_kind hcc

/-! ### Claims C3, C4, C5, C6 -/

/-- Claim C3 (counterexample): the claim says the expected `is_old_db` value
is true for every revision other than the code head, *including the
synthetic BASE revision*; but `_normalize_revision_for_flag` maps the base
sentinel to `None` and `_expected_is_old_db` returns `False` for `None`, so
at the BASE revision the expected value is `false`, not `true`. -/
theorem C3_counterexample :
    expectedIsOldDb (normalizeRevisionForFlag (some baseRevision)) "27cd8d809f5c" = false := by
  decide

/-- Claim C3 (amended): the expected value of the auxiliary `is_old_db`
predicate is `false` exactly when the revision is the newest known revision
in code *or* normalises to the base sentinel (`__BASE__` or any
capitalisation of `base`); it is `true` for every other revision. -/
theorem C3_expected_is_old_db (r codeHead : String) :
    expectedIsOldDb (normalizeRevisionForFlag (some r)) codeHead = true ↔
      (r ≠ baseRevision ∧ lowerStr r ≠ "base" ∧ r ≠ codeHead) := by
  unfold normalizeRevisionForFlag expectedIsOldDb
  by_cases h1 : r = baseRevision
  · simp [h1]
  · by_cases h2 : lowerStr r = "base"
    · simp [h1, h2]
    · simp [h1, h2, bne_iff_ne]

/-- Claim C4 (counterexample): for a node with more than one parent (the
merge-shaped repository `scriptRevsMerge`), the Revision Graph Builder fails
with an issue of kind `multi-branch-repository`, not `multi-head-repository`
as the claim states. -/
theorem C4_counterexample :
    ((buildLinearRevisionOrder (discoverRevisionGraph scriptRevsMerge).1
        (discoverRevisionGraph scriptRevsMerge).2.1
        (discoverRevisionGraph scriptRevsMerge).2.2).2.map (fun i => i.kind) =
      some "multi-branch-repository") ∧
    "multi-branch-repository" ≠ "multi-head-repository" :=
  ⟨by decide, by decide⟩

/-- Claim C4 (amended): a repository exposing a number of heads other than
one fails with `multi-head-repository`; a node with more than one child, or
with more than one non-base parent, makes the Revision Graph Builder fail
with an issue of kind `multi-branch-repository`. -/
theorem C4_issue_kinds :
    (∀ (heads : List String) (expectedHead : String), heads.length ≠ 1 →
      ∃ i, assertSingleHead heads expectedHead = some i ∧ i.kind = "multi-head-repository") ∧
    (∀ (topo : List String) (parents children : RevDict) (p : String) (cs : List String),
      (p, cs) ∈ children → 2 ≤ cs.length →
      ∃ i, (buildLinearRevisionOrder topo parents children).2 = some i ∧
        i.kind = "multi-branch-repository") ∧
    (∀ (topo : List String) (parents children : RevDict) (r : String) (ps : List String),
      (r, ps) ∈ parents → r ≠ baseRevision →
      2 ≤ (ps.filter (fun p => p != baseRevision)).length →
      ∃ i, (buildLinearRevisionOrder topo parents children).2 = some i ∧
        i.kind = "multi-branch-repository") := by
  refine ⟨?_, ?_, ?_⟩
  · intro heads expectedHead h
    unfold assertSingleHead
    rw [if_pos h]
    exact ⟨_, rfl, rfl⟩
  · intro topo parents children p cs hmem hlen
    cases hcc : childrenCheck children with
    | some i =>
      exact ⟨i, by rw [buildLinear_of_childrenCheck hcc], childrenCheck_kind hcc⟩
    | none =>
      have := childrenCheck_none hcc p cs hmem
      omega
  · intro topo parents children r ps hmem hrb hlen
    cases hcc : childrenCheck children with
    | some i =>
      exact ⟨i, by rw [buildLinear_of_childrenCheck hcc], childrenCheck_kind hcc⟩
    | none =>
      cases hpc : parentsCheck parents with
      | some i =>
        exact ⟨i, by rw [buildLinear_of_parentsCheck hcc hpc], parentsCheck_kind hpc⟩
      | none =>
        have := parentsCheck_none hpc r ps hmem hrb
        omega

/-- Witness for C4: the amended statement applied at concrete inputs — the
two-headed repository, a node with the two children `b, c`, and the merge
node `m` with the two parents `p1, p2`. -/
theorem C4_issue_kinds_witness :
    (∃ i, assertSingleHead ["h1", "h2"] "h1" = some i ∧ i.kind = "multi-head-repository") ∧
    (∃ i, (buildLinearRevisionOrder ["__BASE__", "a", "b", "c"] [] [("a", ["b", "c"])]).2 =
      some i ∧ i.kind = "multi-branch-repository") ∧
    (∃ i, (buildLinearRevisionOrder (discoverRevisionGraph scriptRevsMerge).1
        (discoverRevisionGraph scriptRevsMerge).2.1
        (discoverRevisionGraph scriptRevsMerge).2.2).2 = some i ∧
      i.kind = "multi-branch-repository") :=
  ⟨C4_issue_kinds.1 ["h1", "h2"] "h1" (by decide),
   C4_issue_kinds.2.1 ["__BASE__", "a", "b", "c"] [] [("a", ["b", "c"])] "a" ["b", "c"]
     (by decide) (by decide),
   C4_issue_kinds.2.2 (discoverRevisionGraph scriptRevsMerge).1
     (discoverRevisionGraph scriptRevsMerge).2.1
     (discoverRevisionGraph scriptRevsMerge).2.2 "m" ["p1", "p2"]
     (by decide) (by decide) (by decide)⟩

/-- Claim C5 (counterexample): for a repository containing no revisions the
claim says validation reports no structural issue and proceeds to the
model-comparison stage; but an empty repository exposes zero heads, so
`validate_history` returns a `multi-head-repository` issue from
`_assert_single_head` and executes nothing (the trace stays empty — in
particular the model comparison never runs). -/
theorem C5_counterexample :
    ((validateHistory opsUnit [] [] "27cd8d809f5c" ()).1.map (fun i => i.kind) =
      ["multi-head-repository"]) ∧
    (validateHistory opsUnit [] [] "27cd8d809f5c" ()).2.2 = [] := by
  exact ⟨by decide, by decide⟩

/-- Claim C5 (amended): for a repository with no revisions the Revision
Graph Builder itself reports no issue and resolves the linear order to
exactly `[BASE]`, but `validate_history` reports a `multi-head-repository`
issue from the preliminary single-head check (the empty repository exposes
zero heads) and returns before any database step or model comparison. -/
theorem C5_empty_repository {σ : Type} (ops : DBOps σ) (expectedHead : String) (s0 : σ) :
    (buildLinearRevisionOrder (discoverRevisionGraph []).1 (discoverRevisionGraph []).2.1
      (discoverRevisionGraph []).2.2 = ([baseRevision], none)) ∧
    ((validateHistory ops [] [] expectedHead s0).1.map (fun i => i.kind) =
      ["multi-head-repository"]) ∧
    (validateHistory ops [] [] expectedHead s0).2.2 = [] :=
  ⟨by decide, rfl, rfl⟩

/-- Claim C6 (code bug): the tools script's continue-after-failure mode
(`--report-all-drift`) is supposed to keep walking and return the full
issue list, but `validate_alembic_history` calls the two-parameter
`_autogen_diff_is_empty` with three arguments, so as soon as an iteration
reaches the models-comparison step the run raises `TypeError` instead of
returning the collected issues.  At the concrete broken fixture the default
mode returns the single round-trip issue, while the continue mode crashes
after the `upgrade("head")` of the first iteration. -/
theorem C6_continue_mode_crash :
    ((validateAlembicHistory toolsOpsC6 revsTools false false 0).1 =
      ToolsResult.ok
        [{ kind := "roundtrip", at_revision := "r1", path := ["r1", "c", "r1"],
           detail := "Schema fingerprint after r->c->r differs from original at r" }]) ∧
    ((validateAlembicHistory toolsOpsC6 revsTools true false 0).1 =
      ToolsResult.error typeErrorMessage) := by
  exact ⟨by decide, by decide⟩

/-! ### Claim C10 -/

/-- The collection step of `reflect_metadata`, with the Python truthiness
test rewritten as plain membership. -/
theorem reflectStep_eq (acc : List (Option String)) (s : String) :
    (if s ≠ "" ∧ ¬ acc.contains (some s) then acc ++ [some s] else acc) =
      (if s ≠ "" ∧ some s ∉ acc then acc ++ [some s] else acc) := by
  by_cases h : s = "" <;> by_cases hm : some s ∈ acc <;>
    simp [h, hm, List.elem_eq_mem]

/-- Invariant of the schema-collection fold of `reflect_metadata`: starting
from a duplicate-free accumulator, the fold stays duplicate-free, keeps the
accumulator's first element, and collects exactly the accumulator plus the
truthy schemas of the input. -/
theorem reflectFold_spec : ∀ (l : List String) (acc : List (Option String)),
    acc.Nodup →
    (let r := l.foldl (fun schemas sc =>
        if sc ≠ "" ∧ ¬ schemas.contains (some sc) then schemas ++ [some sc] else schemas) acc
     r.Nodup ∧ (acc ≠ [] → r.head? = acc.head?) ∧
       (∀ x, x ∈ r ↔ x ∈ acc ∨ ∃ s ∈ l, s ≠ "" ∧ x = some s))
  | [], acc, hnd => ⟨hnd, fun _ => rfl, fun x => by simp⟩
  | s :: t, acc, hnd => by
    intro r
    have hr : r = t.foldl (fun schemas sc =>
        if sc ≠ "" ∧ ¬ schemas.contains (some sc) then schemas ++ [some sc] else schemas)
        (if s ≠ "" ∧ some s ∉ acc then acc ++ [some s] else acc) := by
      show (s :: t).foldl _ acc = _
      rw [List.foldl_cons, reflectStep_eq]
    by_cases hc : s ≠ "" ∧ some s ∉ acc
    · have hnd2 : (acc ++ [some s]).Nodup := by
        rw [List.nodup_append]
        refine ⟨hnd, List.nodup_singleton _, ?_⟩
        intro a ha hax
        simp only [List.mem_singleton] at hax
        exact hc.2 (hax ▸ ha)
      have ih := reflectFold_spec t (acc ++ [some s]) hnd2
      rw [hr, if_pos hc]
      refine ⟨ih.1, ?_, ?_⟩
      · intro hne
        have hh : (acc ++ [some s]).head? = acc.head? := by
          cases acc with
          | nil => exact absurd rfl hne
          | cons a t0 => rfl
        rw [ih.2.1 (by simp), hh]
      · intro x
        rw [ih.2.2 x]
        constructor
        · rintro (hx | ⟨s2, hs2, hne2, hx⟩)
          · rcases List.mem_append.mp hx with hx | hx
            · exact Or.inl hx
            · simp only [List.mem_singleton] at hx
              exact Or.inr ⟨s, List.mem_cons_self s t, hc.1, hx⟩
          · exact Or.inr ⟨s2, List.mem_cons_of_mem s hs2, hne2, hx⟩
        · rintro (hx | ⟨s2, hs2, hne2, hx⟩)
          · exact Or.inl (List.mem_append_left _ hx)
          · rcases List.mem_cons.mp hs2 with hs2 | hs2
            · subst hs2
              exact Or.inl (List.mem_append_right _ (by simp [hx]))
            · exact Or.inr ⟨s2, hs2, hne2, hx⟩
    · have ih := reflectFold_spec t acc hnd
      rw [hr, if_neg hc]
      refine ⟨ih.1, ih.2.1, ?_⟩
      intro x
      rw [ih.2.2 x]
      constructor
      · rintro (hx | ⟨s2, hs2, hne2, hx⟩)
        · exact Or.inl hx
        · exact Or.inr ⟨s2, List.mem_cons_of_mem s hs2, hne2, hx⟩
      · rintro (hx | ⟨s2, hs2, hne2, hx⟩)
        · exact Or.inl hx
        · rcases List.mem_cons.mp hs2 with hs2 | hs2
          · subst hs2
            rcases not_and_or.mp hc with hc1 | hc2
            · exact absurd hne2 (by simpa using hc1)
            · subst hx
              exact Or.inl (not_not.mp hc2)
          · exact Or.inr ⟨s2, hs2, hne2, hx⟩

/-- Claim C10: `reflect_metadata` always reflects the database's default
schema first (the `None` entry heads the reflection plan and occurs exactly
once), and reflects each distinct non-empty requested schema exactly once
(the plan is duplicate-free, and a named schema appears in it iff it is a
non-empty member of `include_schemas`); duplicates and empty entries are
ignored.  `schema_fingerprint` reflects via exactly this plan. -/
theorem C10_reflect_metadata_schemas (includeSchemas : List String) :
    (reflectMetadataSchemas includeSchemas).head? = some none ∧
    (reflectMetadataSchemas includeSchemas).Nodup ∧
    none ∈ reflectMetadataSchemas includeSchemas ∧
    (∀ s : String, some s ∈ reflectMetadataSchemas includeSchemas ↔
      (s ≠ "" ∧ s ∈ includeSchemas)) := by
  have h := reflectFold_spec includeSchemas [none] (List.nodup_singleton none)
  refine ⟨?_, h.1, ?_, ?_⟩
  · have := h.2.1 (by simp)
    simpa [reflectMetadataSchemas] using this
  · have := (h.2.2 none).mpr (Or.inl (by simp))
    simpa [reflectMetadataSchemas] using this
  · intro s
    have := h.2.2 (some s)
    constructor
    · intro hmem
      have hx := this.mp (by simpa [reflectMetadataSchemas] using hmem)
      rcases hx with hx | ⟨s2, hs2, hne2, hx⟩
      · simp at hx
      · simp only [Option.some.injEq] at hx
        exact ⟨hx ▸ hne2, hx ▸ hs2⟩
    · intro ⟨hne, hmem⟩
      have : some s ∈ [none] ∨ ∃ s2 ∈ includeSchemas, s2 ≠ "" ∧ some s = some s2 :=
        Or.inr ⟨s, hmem, hne, rfl⟩
      simpa [reflectMetadataSchemas] using (h.2.2 (some s)).mpr this

/-! ### Claim C8: server-default normalisation -/

/-- `takeWhile`/`dropWhile` split an append at the first failing element. -/
theorem takeWhile_dropWhile_append {p : Char → Bool} :
    ∀ {l₁ : List Char} {c : Char} (l₂ : List Char), (∀ x ∈ l₁, p x = true) → p c = false →
      (l₁ ++ c :: l₂).takeWhile p = l₁ ∧ (l₁ ++ c :: l₂).dropWhile p = c :: l₂
  | [], c, l₂, _, hc => by
    constructor
    · simp [List.takeWhile, hc]
    · simp [List.dropWhile, hc]
  | x :: l₁, c, l₂, hall, hc => by
    have hx : p x = true := hall x (List.mem_cons_self x l₁)
    have ih := takeWhile_dropWhile_append (p := p) l₂
      (fun y hy => hall y (List.mem_cons_of_mem x hy)) hc
    constructor
    · simp [List.takeWhile, hx, ih.1]
    · simp [List.dropWhile, hx, ih.2]

/-- A successful cast strip removes at least three characters. -/
theorem stripCastOnce_length {rev rev2 : List Char} (h : stripCastOnce rev = some rev2) :
    rev2.length + 3 ≤ rev.length := by
  have hsplit : rev.takeWhile isWordChar ++ rev.dropWhile isWordChar = rev :=
    List.takeWhile_append_dropWhile isWordChar rev
  rw [stripCastOnce] at h
  match hd : rev.dropWhile isWordChar, hg : (rev.takeWhile isWordChar).getLast? with
  | [], _ => rw [hd] at h; simp at h
  | [c], _ => rw [hd] at h; simp at h
  | c1 :: c2 :: rest2, none => rw [hd, hg] at h; simp at h
  | c1 :: c2 :: rest2, some c0 =>
    rw [hd, hg] at h
    simp only [] at h
    split at h
    · simp only [Option.some.injEq] at h
      have hwne : rev.takeWhile isWordChar ≠ [] := by
        intro he
        rw [he] at hg
        simp at hg
      have hwlen : 1 ≤ (rev.takeWhile isWordChar).length := by
        cases hwc : rev.takeWhile isWordChar with
        | nil => exact absurd hwc hwne
        | cons _ _ => simp
      have hlen2 := congrArg List.length hsplit
      rw [hd] at hlen2
      simp only [List.length_append, List.length_cons] at hlen2
      have hre : rev2.length = rest2.length := by rw [← h]
      omega
    · simp at h

/-- Cast stripping of the empty text is the empty text (any fuel). -/
theorem stripCastsIter_nil : ∀ n, stripCastsIter n [] = []
  | 0 => rfl
  | n + 1 => by
    show (match stripCastOnce [] with
      | some rev2 => stripCastsIter n rev2
      | none => []) = []
    rfl

/-- Cast stripping is fuel-insensitive as long as the fuel covers the
length of the text. -/
theorem stripCastsIter_fuel : ∀ (n m : Nat) (rev : List Char),
    rev.length ≤ n → rev.length ≤ m → stripCastsIter n rev = stripCastsIter m rev
  | 0, m, rev, hn, _ => by
    have : rev = [] := List.length_eq_zero.mp (Nat.le_zero.mp hn)
    subst this
    rw [stripCastsIter_nil, stripCastsIter_nil]
  | n + 1, m, rev, hn, hm => by
    cases m with
    | zero =>
      have : rev = [] := List.length_eq_zero.mp (Nat.le_zero.mp hm)
      subst this
      rw [stripCastsIter_nil, stripCastsIter_nil]
    | succ m2 =>
      show (match stripCastOnce rev with
        | some rev2 => stripCastsIter n rev2
        | none => rev) = (match stripCastOnce rev with
        | some rev2 => stripCastsIter m2 rev2
        | none => rev)
      cases hso : stripCastOnce rev with
      | none => rfl
      | some rev2 =>
        have hlen := stripCastOnce_length hso
        exact stripCastsIter_fuel n m2 rev2 (by omega) (by omega)

/-- Appending a `::identifier` cast adds exactly one strippable step. -/
theorem stripCastOnce_append {t i : String} (hi : isCastIdent i = true) :
    stripCastOnce ((t ++ "::" ++ i).data.reverse) = some t.data.reverse := by
  have hdata : (t ++ "::" ++ i).data = t.data ++ (':' :: ':' :: []) ++ i.data := rfl
  have hrev : (t ++ "::" ++ i).data.reverse =
      i.data.reverse ++ ':' :: ':' :: t.data.reverse := by
    rw [hdata]
    simp [List.reverse_append]
  unfold isCastIdent at hi
  simp only [Bool.and_eq_true, List.all_eq_true] at hi
  have hne : i.data ≠ [] := by
    intro he
    rw [he] at hi
    simp at hi
  have hallrev : ∀ x ∈ i.data.reverse, isWordChar x = true := by
    intro x hx
    exact hi.1.2 x (List.mem_reverse.mp hx)
  have hcolon : isWordChar ':' = false := by decide
  have hsplit := @takeWhile_dropWhile_append isWordChar i.data.reverse
    (Char.ofNat 58) (Char.ofNat 58 :: t.data.reverse) hallrev hcolon
  obtain ⟨c, cs, hcons⟩ : ∃ c cs, i.data = c :: cs := by
    cases hq : i.data with
    | nil => exact absurd hq hne
    | cons c cs => exact ⟨c, cs, rfl⟩
  have hhead : i.data.head? = some c := by rw [hcons]; rfl
  have hident : isIdentStart c = true := by
    have h2 := hi.2
    rw [hhead] at h2
    exact h2
  rw [stripCastOnce, hrev, hsplit.2, hsplit.1, List.getLast?_reverse, hhead]
  simp [hident]

/-- Stripping casts from `t::ident` gives the stripped `t`. -/
theorem stripCasts_append_cast {t i : String} (hi : isCastIdent i = true) :
    stripCasts (t ++ "::" ++ i) = stripCasts t := by
  unfold stripCasts
  have hones := @stripCastOnce_append t i hi
  have hdata : (t ++ "::" ++ i).data = t.data ++ (':' :: ':' :: []) ++ i.data := rfl
  have hlen : (t ++ "::" ++ i).data.length = t.data.length + 2 + i.data.length := by
    rw [hdata]
    simp [List.length_append]
    omega
  have hlenrev : (t ++ "::" ++ i).data.reverse.length = t.data.length + 2 + i.data.length := by
    rw [List.length_reverse, hlen]
  have hsucc : t.data.length + 2 + i.data.length = (t.data.length + 1 + i.data.length) + 1 := by
    omega
  have hstep : stripCastsIter ((t ++ "::" ++ i).data.length) ((t ++ "::" ++ i).data.reverse) =
      stripCastsIter (t.data.length + 1 + i.data.length) t.data.reverse := by
    rw [hlen, hsucc]
    show (match stripCastOnce ((t ++ "::" ++ i).data.reverse) with
      | some rev2 => stripCastsIter (t.data.length + 1 + i.data.length) rev2
      | none => (t ++ "::" ++ i).data.reverse) = _
    rw [hones]
  rw [hstep]
  rw [stripCastsIter_fuel (t.data.length + 1 + i.data.length) t.data.length t.data.reverse
    (by rw [List.length_reverse]; omega) (le_of_eq (List.length_reverse t.data))]

/-- Unfolding equation of `normalizeServerDefault` on a present default. -/
theorem normalizeServerDefault_some (s : String) :
    normalizeServerDefault (some s) =
      (if trimWs (normalizeSqlText (some s)) = "" then none
       else if timeTokens.contains
           (stripSquotes (upperStr (trimWs (stripCasts (trimWs (normalizeSqlText (some s))))))) then
         some "CURRENT_TIMESTAMP"
       else if boolTrueTokens.contains
           (stripSquotes (upperStr (trimWs (stripCasts (trimWs (normalizeSqlText (some s))))))) then
         some "TRUE"
       else if boolFalseTokens.contains
           (stripSquotes (upperStr (trimWs (stripCasts (trimWs (normalizeSqlText (some s))))))) then
         some "FALSE"
       else some (trimWs (stripCasts (trimWs (normalizeSqlText (some s)))))) := rfl

/-- Claim C8: server-default normalisation canonicalises to fixed tokens.
`None` and empty/whitespace-only compiled defaults normalise to no default;
trailing SQL casts (`::identifier`, repeated) are stripped; after cast
stripping and apostrophe-stripped upper-casing, the current-timestamp forms
normalise to the token `CURRENT_TIMESTAMP`, the true forms `TRUE`, `1`,
`'TRUE'`, `(1)` to `TRUE`, and the false forms `FALSE`, `0`, `'FALSE'`,
`(0)` to `FALSE`. -/
theorem C8_normalize_server_default :
    (normalizeServerDefault none = none) ∧
    (∀ s : String, trimWs (normalizeSqlText (some s)) = "" →
      normalizeServerDefault (some s) = none) ∧
    (∀ t i : String, isCastIdent i = true →
      stripCasts (t ++ "::" ++ i) = stripCasts t) ∧
    (∀ s : String,
      trimWs (normalizeSqlText (some s)) ≠ "" →
      ((stripSquotes (upperStr (trimWs (stripCasts (trimWs (normalizeSqlText (some s)))))) ∈
          timeTokens →
        normalizeServerDefault (some s) = some "CURRENT_TIMESTAMP") ∧
       (stripSquotes (upperStr (trimWs (stripCasts (trimWs (normalizeSqlText (some s)))))) ∈
          boolTrueTokens →
        normalizeServerDefault (some s) = some "TRUE") ∧
       (stripSquotes (upperStr (trimWs (stripCasts (trimWs (normalizeSqlText (some s)))))) ∈
          boolFalseTokens →
        normalizeServerDefault (some s) = some "FALSE"))) := by
  refine ⟨rfl, ?_, ?_, ?_⟩
  · intro s hempty
    rw [normalizeServerDefault_some, if_pos hempty]
  · intro t i hi
    exact stripCasts_append_cast hi
  · intro s hne
    have htime : ∀ u : String, u ∈ boolTrueTokens → u ∉ timeTokens := by decide
    have hfalse : ∀ u : String, u ∈ boolFalseTokens → u ∉ timeTokens ∧ u ∉ boolTrueTokens := by
      decide
    refine ⟨?_, ?_, ?_⟩
    · intro hmem
      rw [normalizeServerDefault_some, if_neg hne,
        if_pos ((contains_iff_mem _ _).mpr hmem)]
    · intro hmem
      rw [normalizeServerDefault_some, if_neg hne,
        if_neg (fun hcc => htime _ hmem ((contains_iff_mem _ _).mp hcc)),
        if_pos ((contains_iff_mem _ _).mpr hmem)]
    · intro hmem
      rw [normalizeServerDefault_some, if_neg hne,
        if_neg (fun hcc => (hfalse _ hmem).1 ((contains_iff_mem _ _).mp hcc)),
        if_neg (fun hcc => (hfalse _ hmem).2 ((contains_iff_mem _ _).mp hcc)),
        if_pos ((contains_iff_mem _ _).mpr hmem)]

/-- Witness for C8: the amended facts applied at concrete defaults —
`now()::timestamp` normalises to `CURRENT_TIMESTAMP`, a whitespace-only
default to `None`, and `(0)::smallint` to `FALSE` (with the cast-stripping
part applied at `(0)`/`smallint`). -/
theorem C8_normalize_server_default_witness :
    (normalizeServerDefault none = none) ∧
    (normalizeServerDefault (some " ") = none) ∧
    (stripCasts ("(0)" ++ "::" ++ "smallint") = stripCasts "(0)") ∧
    (normalizeServerDefault (some "now()::timestamp") = some "CURRENT_TIMESTAMP") ∧
    (normalizeServerDefault (some "1::boolean") = some "TRUE") ∧
    (normalizeServerDefault (some "(0)::smallint") = some "FALSE") :=
  ⟨C8_normalize_server_default.1,
   C8_normalize_server_default.2.1 " " (by decide),
   C8_normalize_server_default.2.2.1 "(0)" "smallint" (by decide),
   (C8_normalize_server_default.2.2.2 "now()::timestamp" (by decide)).1 (by decide),
   ((C8_normalize_server_default.2.2.2 "1::boolean" (by decide)).2.1 (by decide)),
   ((C8_normalize_server_default.2.2.2 "(0)::smallint" (by decide)).2.2 (by decide))⟩

/-! ### Claims C1 and C9: the round-trip validator on one edge -/

/-- A correct `is_old_db` probe produces no issue. -/
theorem checkIsOldDbState_none {σ : Type} (ops : DBOps σ) (er : Option String)
    (dr sl ch : String) (s : σ) (h : ops.isOldDB s = expectedIsOldDb er ch) :
    checkIsOldDbState ops er dr sl ch s = none := by
  simp [checkIsOldDbState, h]

/-- An incorrect `is_old_db` probe produces the `is-old-db` issue. -/
theorem checkIsOldDbState_some {σ : Type} (ops : DBOps σ) (er : Option String)
    (dr sl ch : String) (s : σ) (h : ops.isOldDB s ≠ expectedIsOldDb er ch) :
    checkIsOldDbState ops er dr sl ch s =
      some { kind := "is-old-db", at_revision := dr, path := [sl],
             detail := "is_old_db() returned " ++ pyBool (ops.isOldDB s) ++ " during " ++ sl ++
               "; expected " ++ pyBool (expectedIsOldDb er ch) ++
               ". The database revision markers are inconsistent with the Alembic state." } := by
  simp only [checkIsOldDbState, bne_iff_ne, ne_eq, h, not_false_eq_true, if_pos]

/-- Evaluation of the forward (upgrade-then-downgrade) round trip when both
state probes are clean: the two commands run, and either the digest matches
the prepared snapshot (no issue) or the drift issue is built. -/
theorem verifyRoundtrip_fwd_eq {σ : Type} (ops : DBOps σ) (prepared : SchemaSnapshot)
    (target parent dtgt bl al ik ir : String) (ip : List String) (idp : String)
    (checker : String → String → σ → Option Issue) (s : σ) (tr : List DbOp)
    (h1 : checker target "upgrade" (ops.upgrade target s) = none)
    (h2 : checker parent "downgrade" (ops.downgrade dtgt (ops.upgrade target s)) = none) :
    verifyRoundtrip ops prepared target parent dtgt bl al ik ir ip idp true
        (some checker) (s, tr) =
      (let s2 := ops.downgrade dtgt (ops.upgrade target s)
       let snapBack := ops.fingerprint s2
       ((if snapBack.digest ≠ prepared.digest then
          let diffText := unifiedDiff prepared.text snapBack.text bl al
          let tokenDiff := firstTokenMismatch prepared.tokens snapBack.tokens
          let detail0 := idp ++ "\n  before: " ++ prepared.digest ++
            "\n  after : " ++ snapBack.digest
          let detail1 := match tokenDiff with
            | some td => detail0 ++ "\n  first mismatch: " ++ td
            | none => detail0
          some { kind := ik, at_revision := ir, path := ip,
                 detail := detail1 ++ "\n" ++ diffText,
                 fingerprint_before := some prepared.text,
                 fingerprint_after := some snapBack.text,
                 fingerprint_diff := some diffText }
         else none),
        (s2, tr ++ [DbOp.upgrade target, DbOp.downgrade dtgt]))) := by
  simp only [verifyRoundtrip, runUpgrade, runDowngrade, if_true]
  rw [h1, h2]
  simp only [List.append_assoc, List.cons_append, List.nil_append]
  split <;> rfl

/-- Evaluation of the backward (downgrade-then-upgrade) round trip when both
state probes are clean. -/
theorem verifyRoundtrip_bwd_eq {σ : Type} (ops : DBOps σ) (prepared : SchemaSnapshot)
    (target parent dtgt bl al ik ir : String) (ip : List String) (idp : String)
    (checker : String → String → σ → Option Issue) (s : σ) (tr : List DbOp)
    (h1 : checker parent "downgrade" (ops.downgrade dtgt s) = none)
    (h2 : checker target "upgrade" (ops.upgrade target (ops.downgrade dtgt s)) = none) :
    verifyRoundtrip ops prepared target parent dtgt bl al ik ir ip idp false
        (some checker) (s, tr) =
      (let s2 := ops.upgrade target (ops.downgrade dtgt s)
       let snapBack := ops.fingerprint s2
       ((if snapBack.digest ≠ prepared.digest then
          let diffText := unifiedDiff prepared.text snapBack.text bl al
          let tokenDiff := firstTokenMismatch prepared.tokens snapBack.tokens
          let detail0 := idp ++ "\n  before: " ++ prepared.digest ++
            "\n  after : " ++ snapBack.digest
          let detail1 := match tokenDiff with
            | some td => detail0 ++ "\n  first mismatch: " ++ td
            | none => detail0
          some { kind := ik, at_revision := ir, path := ip,
                 detail := detail1 ++ "\n" ++ diffText,
                 fingerprint_before := some prepared.text,
                 fingerprint_after := some snapBack.text,
                 fingerprint_diff := some diffText }
         else none),
        (s2, tr ++ [DbOp.downgrade dtgt, DbOp.upgrade target]))) := by
  simp only [verifyRoundtrip, runUpgrade, runDowngrade, if_false, Bool.false_eq_true]
  rw [h1, h2]
  simp only [List.append_assoc, List.cons_append, List.nil_append]
  split <;> rfl

/-- Claim C1 (amended): on an edge whose forward-then-back round trip keeps
the `is_old_db` probes clean, the validator re-fingerprints and compares the
new digest with the snapshot captured at the parent: on divergence the edge
stops with exactly one issue of kind `roundtrip` whose detail carries the
unified diff of the two canonical texts and — whenever the token maps
differ — the first differing token-map key (when the token maps are equal
the detail carries only the diff); on digest equality the forward round
trip reports no issue. -/
theorem C1_roundtrip (σ : Type) (ops : DBOps σ) (parentRev childRev codeHead : String)
    (parentSnap : SchemaSnapshot) (s : σ) (tr : List DbOp)
    (hup : ops.isOldDB (ops.upgrade childRev s) =
      expectedIsOldDb (normalizeRevisionForFlag (some childRev)) codeHead)
    (hdown : ops.isOldDB (ops.downgrade (downgradeTargetOf parentRev) (ops.upgrade childRev s)) =
      expectedIsOldDb (normalizeRevisionForFlag (some parentRev)) codeHead) :
    (let dp := displayRevision parentRev
     let dc := displayRevision childRev
     let dtgt := downgradeTargetOf parentRev
     let pathStr := String.intercalate "->" [dp, dc, dp]
     let s2 := ops.downgrade dtgt (ops.upgrade childRev s)
     let snapBack := ops.fingerprint s2
     let diffText := unifiedDiff parentSnap.text snapBack.text (dp ++ " before")
       (dp ++ " after " ++ pathStr)
     let detail0 := "Schema fingerprint after " ++ pathStr ++ " differs from original at " ++
       dp ++ "\n  before: " ++ parentSnap.digest ++ "\n  after : " ++ snapBack.digest
     let detail1 := match firstTokenMismatch parentSnap.tokens snapBack.tokens with
       | some td => detail0 ++ "\n  first mismatch: " ++ td
       | none => detail0
     (snapBack.digest ≠ parentSnap.digest →
       checkLinearRevisionEdge ops parentRev parentSnap childRev codeHead (s, tr) =
         (([{ kind := "roundtrip", at_revision := dp, path := [dp, dc, dp],
              detail := detail1 ++ "\n" ++ diffText,
              fingerprint_before := some parentSnap.text,
              fingerprint_after := some snapBack.text,
              fingerprint_diff := some diffText }], parentSnap, false),
          (s2, tr ++ [DbOp.upgrade childRev, DbOp.downgrade dtgt]))) ∧
     (snapBack.digest = parentSnap.digest →
       (verifyRoundtrip ops parentSnap childRev parentRev dtgt (dp ++ " before")
         (dp ++ " after " ++ pathStr) "roundtrip" dp [dp, dc, dp]
         ("Schema fingerprint after " ++ pathStr ++ " differs from original at " ++ dp)
         true (some (edgePathChecker ops codeHead pathStr)) (s, tr)).1 = none)) := by
  intro dp dc dtgt pathStr s2 snapBack diffText detail0 detail1
  have hc1 : edgePathChecker ops codeHead pathStr childRev "upgrade"
      (ops.upgrade childRev s) = none :=
    checkIsOldDbState_none ops _ _ _ _ _ hup
  have hc2 : edgePathChecker ops codeHead pathStr parentRev "downgrade"
      (ops.downgrade dtgt (ops.upgrade childRev s)) = none :=
    checkIsOldDbState_none ops _ _ _ _ _ hdown
  constructor
  · intro hdig
    show checkLinearRevisionEdge ops parentRev parentSnap childRev codeHead (s, tr) = _
    simp only [checkLinearRevisionEdge]
    rw [verifyRoundtrip_fwd_eq ops parentSnap childRev parentRev dtgt (dp ++ " before")
      (dp ++ " after " ++ pathStr) "roundtrip" dp [dp, dc, dp]
      ("Schema fingerprint after " ++ pathStr ++ " differs from original at " ++ dp)
      (edgePathChecker ops codeHead pathStr) s tr hc1 hc2]
    simp only []
    rw [if_pos hdig]
  · intro hdig
    rw [verifyRoundtrip_fwd_eq ops parentSnap childRev parentRev dtgt (dp ++ " before")
      (dp ++ " after " ++ pathStr) "roundtrip" dp [dp, dc, dp]
      ("Schema fingerprint after " ++ pathStr ++ " differs from original at " ++ dp)
      (edgePathChecker ops codeHead pathStr) s tr hc1 hc2]
    simp only []
    rw [if_neg (fun hne => hne hdig)]

set_option maxRecDepth 8000 in
/-- Claim C1 (counterexample): an edge can diverge (the digests differ and a
`roundtrip` issue is produced) while the two token maps are identical, so
there is no "first differing token-map key" for the detail to carry — the
claim's universal "any divergence produces an issue ... whose detail
carries ... the first differing token-map key" is false.  The fixture
drifts only in the order of the composite primary key's columns, which
changes the canonical text (the `PK` line) but no token-map entry. -/
theorem C1_counterexample :
    (((checkLinearRevisionEdge opsC1 "r1" (schemaFingerprint mdPk1) "r2" "h" (0, [])).1.1.map
      (fun i => i.kind)) = ["roundtrip"]) ∧
    (schemaFingerprint mdPk1).digest ≠ (schemaFingerprint mdPk2).digest ∧
    (schemaFingerprint mdPk1).tokens = (schemaFingerprint mdPk2).tokens ∧
    firstTokenMismatch (schemaFingerprint mdPk1).tokens (schemaFingerprint mdPk2).tokens =
      none := by
  exact ⟨by decide, by decide, by decide, by decide⟩

set_option maxRecDepth 8000 in
/-- Witness for C1: the amended statement applied to the concrete drifting
database `opsC1` — the divergence hypothesis holds there, and the edge
returns the single `roundtrip` issue. -/
theorem C1_roundtrip_witness :
    ((checkLinearRevisionEdge opsC1 "r1" (schemaFingerprint mdPk1) "r2" "h" (0, [])).1.1.map
      (fun i => i.kind)) = ["roundtrip"] := by
  have h := (C1_roundtrip Nat opsC1 "r1" "r2" "h" (schemaFingerprint mdPk1) 0 []
    (by decide) (by decide)).1 (by decide)
  rw [h]
  rfl

/-- Claim C9: an `is_old_db` violation detected at the intermediate
"prepare child" stage of an edge (between the forward and the backward
round trip) does not halt the edge: the validator still captures the child
snapshot (the fingerprint of the state reached by the prepare upgrade) and
executes the full backward round trip (downgrade to the parent, upgrade
back to the child) before returning the edge's issue list, which then
consists of exactly the prepare-stage `is-old-db` issue (the validity flag
even remains `true`). -/
theorem C9_prepare_issue_does_not_halt (σ : Type) (ops : DBOps σ)
    (parentRev childRev codeHead : String) (parentSnap : SchemaSnapshot)
    (s : σ) (tr : List DbOp)
    (h1 : ops.isOldDB (ops.upgrade childRev s) =
      expectedIsOldDb (normalizeRevisionForFlag (some childRev)) codeHead)
    (h2 : ops.isOldDB (ops.downgrade (downgradeTargetOf parentRev) (ops.upgrade childRev s)) =
      expectedIsOldDb (normalizeRevisionForFlag (some parentRev)) codeHead)
    (h3 : (ops.fingerprint (ops.downgrade (downgradeTargetOf parentRev)
      (ops.upgrade childRev s))).digest = parentSnap.digest)
    (h4 : ops.isOldDB (ops.upgrade childRev (ops.downgrade (downgradeTargetOf parentRev)
        (ops.upgrade childRev s))) ≠
      expectedIsOldDb (normalizeRevisionForFlag (some childRev)) codeHead)
    (h5 : ops.isOldDB (ops.downgrade (downgradeTargetOf parentRev) (ops.upgrade childRev
        (ops.downgrade (downgradeTargetOf parentRev) (ops.upgrade childRev s)))) =
      expectedIsOldDb (normalizeRevisionForFlag (some parentRev)) codeHead)
    (h6 : ops.isOldDB (ops.upgrade childRev (ops.downgrade (downgradeTargetOf parentRev)
        (ops.upgrade childRev (ops.downgrade (downgradeTargetOf parentRev)
          (ops.upgrade childRev s))))) =
      expectedIsOldDb (normalizeRevisionForFlag (some childRev)) codeHead)
    (h7 : (ops.fingerprint (ops.upgrade childRev (ops.downgrade (downgradeTargetOf parentRev)
        (ops.upgrade childRev (ops.downgrade (downgradeTargetOf parentRev)
          (ops.upgrade childRev s)))))).digest =
      (ops.fingerprint (ops.upgrade childRev (ops.downgrade (downgradeTargetOf parentRev)
        (ops.upgrade childRev s)))).digest) :
    (let dtgt := downgradeTargetOf parentRev
     let s2 := ops.downgrade dtgt (ops.upgrade childRev s)
     let s3 := ops.upgrade childRev s2
     let s4 := ops.downgrade dtgt s3
     let s5 := ops.upgrade childRev s4
     checkLinearRevisionEdge ops parentRev parentSnap childRev codeHead (s, tr) =
       (([{ kind := "is-old-db", at_revision := displayRevision childRev,
            path := ["prepare " ++ displayRevision childRev],
            detail := "is_old_db() returned " ++ pyBool (ops.isOldDB s3) ++
              " during " ++ ("prepare " ++ displayRevision childRev) ++ "; expected " ++
              pyBool (expectedIsOldDb (normalizeRevisionForFlag (some childRev)) codeHead) ++
              ". The database revision markers are inconsistent with the Alembic state." }],
         ops.fingerprint s3, true),
        (s5, tr ++ [DbOp.upgrade childRev, DbOp.downgrade dtgt, DbOp.upgrade childRev,
          DbOp.downgrade dtgt, DbOp.upgrade childRev]))) := by
  intro dtgt s2 s3 s4 s5
  have hc1 : edgePathChecker ops codeHead
      (String.intercalate "->" [displayRevision parentRev, displayRevision childRev,
        displayRevision parentRev]) childRev "upgrade" (ops.upgrade childRev s) = none :=
    checkIsOldDbState_none ops _ _ _ _ _ h1
  have hc2 : edgePathChecker ops codeHead
      (String.intercalate "->" [displayRevision parentRev, displayRevision childRev,
        displayRevision parentRev]) parentRev "downgrade" s2 = none :=
    checkIsOldDbState_none ops _ _ _ _ _ h2
  have hc3 : edgePathChecker ops codeHead
      (String.intercalate "->" [displayRevision childRev, displayRevision parentRev,
        displayRevision childRev]) parentRev "downgrade" s4 = none :=
    checkIsOldDbState_none ops _ _ _ _ _ h5
  have hc4 : edgePathChecker ops codeHead
      (String.intercalate "->" [displayRevision childRev, displayRevision parentRev,
        displayRevision childRev]) childRev "upgrade" s5 = none :=
    checkIsOldDbState_none ops _ _ _ _ _ h6
  simp only [checkLinearRevisionEdge]
  rw [verifyRoundtrip_fwd_eq ops parentSnap childRev parentRev dtgt _ _ _ _ _ _ _ s tr hc1 hc2]
  simp only []
  rw [if_neg (fun hne => hne h3)]
  simp only [runUpgrade]
  rw [checkIsOldDbState_some ops _ _ _ _ _ h4]
  rw [verifyRoundtrip_bwd_eq ops (ops.fingerprint s3) childRev parentRev dtgt _ _ _ _ _ _ _
    _ _ hc3 hc4]
  simp only []
  rw [if_neg (fun hne => hne h7)]
  simp [List.append_assoc, String.append_assoc]

set_option maxRecDepth 8000 in
/-- Witness for C9: the statement applied to the concrete behaviour `opsC9`
whose `is_old_db` probe is wrong exactly at the prepare-child state; the
edge still runs all five commands, captures the child snapshot, and returns
the single prepare-stage issue without halting. -/
theorem C9_prepare_issue_witness :
    ((checkLinearRevisionEdge opsC9 "r1" (schemaFingerprint mdPk1) "r2" "h" (0, [])).1.1.map
      (fun i => i.kind) = ["is-old-db"]) ∧
    ((checkLinearRevisionEdge opsC9 "r1" (schemaFingerprint mdPk1) "r2" "h" (0, [])).1.2.2 =
      true) ∧
    ((checkLinearRevisionEdge opsC9 "r1" (schemaFingerprint mdPk1) "r2" "h" (0, [])).2.2 =
      [DbOp.upgrade "r2", DbOp.downgrade "r1", DbOp.upgrade "r2", DbOp.downgrade "r1",
       DbOp.upgrade "r2"]) := by
  have h := C9_prepare_issue_does_not_halt Nat opsC9 "r1" "r2" "h" (schemaFingerprint mdPk1) 0 []
    (by decide) (by decide) (by decide) (by decide) (by decide) (by decide) (by decide)
  rw [h]
  exact ⟨rfl, rfl, rfl⟩

/-! ### Claim C2: order-independence of `schema_fingerprint` -/

set_option maxRecDepth 8000 in
/-- Claim C2 (counterexample): the engine is *not* order-independent on
every realizable reflection, contrary to the claim's universal statement.
Two foreign keys on the same `(column, target table, target column)` triple
(legal SQL: two differently-named constraints on one column pair, both kept
by reflection) tie on every sort key `schema_fingerprint` uses, the stable
sorts keep the enumeration order, and the two enumeration orders of the
identical structural state yield different canonical texts and digests. -/
theorem C2_counterexample :
    MetadataEquiv [tblC2dupA] [tblC2dupB] ∧
      (schemaFingerprint [tblC2dupA]).text ≠ (schemaFingerprint [tblC2dupB]).text ∧
      (schemaFingerprint [tblC2dupA]).digest ≠ (schemaFingerprint [tblC2dupB]).digest := by
  refine ⟨⟨[tblC2dupB], List.Forall₂.cons ?_ List.Forall₂.nil, List.Perm.refl _⟩, ?_, ?_⟩
  · exact ⟨rfl, rfl, List.Perm.refl _, rfl, List.Perm.refl _, List.Perm.refl _, by decide,
      List.Perm.refl _⟩
  · decide
  · decide

/-- Claim C2 (corrected): the fingerprint engine is order-independent on
reflections without duplicate foreign-key column pairs — two well-formed
reflections of the identical structural schema state (tables, columns,
indexes and constraints enumerated in any orders, with column names, index
sort keys and foreign-key `(column, target table, target column)` triples
duplicate-free per table) produce the same `SchemaSnapshot`: identical
canonical text, identical digest and identical token map.  Without the
foreign-key restriction the engine is order-dependent, as the
counterexample above shows. -/
theorem C2_fingerprint_deterministic {md1 md2 : MetadataModel}
    (hwf : MetadataWF md1) (heq : MetadataEquiv md1 md2) :
    schemaFingerprint md1 = schemaFingerprint md2 := by
  obtain ⟨l3, h13, h32⟩ := heq
  have hF : List.Forall₂ TableEquiv (sortByKey tableKey md1) (sortByKey tableKey md2) :=
    sortByKey_forall2 tableKey (fun a b hab => tableEquiv_key hab) h13 h32 hwf.1
  have hWF : ∀ t ∈ sortByKey tableKey md1, TableWF t :=
    fun t ht => hwf.2 t ((sortByKey_perm tableKey md1).subset ht)
  have hparts : (sortByKey tableKey md1).map tableParts =
      (sortByKey tableKey md2).map tableParts := parts_map_congr hF hWF
  have htok : buildTokenMap md1 = buildTokenMap md2 := tokenFold_congr hF hWF []
  simp only [schemaFingerprint, hparts, htok]

/-- Witness for C2: the two-table fixture reflected in two different
enumeration orders satisfies both hypotheses, and the theorem yields equal
fingerprints. -/
theorem C2_fingerprint_deterministic_witness :
    MetadataWF mdC2a ∧ MetadataEquiv mdC2a mdC2b ∧
      schemaFingerprint mdC2a = schemaFingerprint mdC2b := by
  have hacc : TableEquiv tblC2acc1 tblC2acc2 :=
    ⟨rfl, rfl, by decide, rfl, by decide, by decide, by decide, by decide⟩
  have href : TableEquiv tblC2ref tblC2ref :=
    ⟨rfl, rfl, List.Perm.refl _, rfl, List.Perm.refl _, List.Perm.refl _,
      List.Perm.refl _, List.Perm.refl _⟩
  have hwf : MetadataWF mdC2a := by
    constructor
    · decide
    · intro t ht
      have ht2 : t = tblC2acc1 ∨ t = tblC2ref := by
        simpa [mdC2a] using ht
      rcases ht2 with h | h
      · subst h
        exact ⟨by decide, by decide, by decide, by decide⟩
      · subst h
        exact ⟨by decide, by decide, by decide, by decide⟩
  have heq : MetadataEquiv mdC2a mdC2b :=
    ⟨[tblC2acc2, tblC2ref],
      List.Forall₂.cons hacc (List.Forall₂.cons href List.Forall₂.nil),
      by decide⟩
  exact ⟨hwf, heq, C2_fingerprint_deterministic hwf heq⟩

/-! ### Claim C7: structural issues precede destructive steps -/

/-- Claim C7 (corrected): for every repository whose discovered revision
graph is not a single linear chain — multiple (or zero) heads, a node with
several children, a node with several parents, a cycle through a listed
revision, or an unreachable listed revision — `validate_history` returns a
single issue with an empty command trace: no drop, upgrade or downgrade (nor
any other database step) is executed.  The issue is the structural
multi-head/multi-branch issue except when the single repository head merely
differs from the `ALEMBIC_REVISION` constant, in which case the preliminary
head check returns an `alembicrevision-mismatch` issue instead of the
structural one. -/
theorem C7_structural_before_destructive (σ : Type) (ops : DBOps σ)
    (scriptRevs : List ScriptRev) (heads : List String) (expectedHead : String) (s0 : σ)
    (hns : notSingleLinearChain heads (discoverRevisionGraph scriptRevs).1
      (discoverRevisionGraph scriptRevs).2.1 (discoverRevisionGraph scriptRevs).2.2) :
    ∃ i : Issue,
      validateHistory ops scriptRevs heads expectedHead s0 = ([i], (s0, [])) ∧
        (i.kind = "multi-head-repository" ∨ i.kind = "multi-branch-repository" ∨
          i.kind = "alembicrevision-mismatch") := by
  rcases hash : assertSingleHead heads expectedHead with _ | i
  · have hlen1 : heads.length = 1 := (assertSingleHead_none hash).1
    rcases hb : buildLinearRevisionOrder (discoverRevisionGraph scriptRevs).1
        (discoverRevisionGraph scriptRevs).2.1 (discoverRevisionGraph scriptRevs).2.2
        with ⟨ord, oi⟩
    rcases oi with _ | i2
    · have hlin := buildLinear_none_linear hb
      rcases hns with hcase | hcase | hcase | hcase | hcase
      · exact absurd hlen1 hcase
      · exact absurd hcase hlin.1
      · exact absurd hcase hlin.2.1
      · exact absurd hcase hlin.2.2.1
      · exact absurd hcase hlin.2.2.2
    · refine ⟨i2, ?_, Or.inr (Or.inl (buildLinear_some_kind hb))⟩
      simp only [validateHistory, hash, hb]
  · exact ⟨i, by simp only [validateHistory, hash], by
      rcases assertSingleHead_kind hash with hk | hk
      · exact Or.inl hk
      · exact Or.inr (Or.inr hk)⟩

/-- Counterexample to C7's wording: a merge-shaped (multi-parent) repository
whose single head does not match the code's `ALEMBIC_REVISION` constant is
rejected by the preliminary head check with an `alembicrevision-mismatch`
issue.  No destructive operation runs, but the returned issue is not the
structural branching issue the claim promises. -/
theorem C7_counterexample :
    hasMultiParent (discoverRevisionGraph scriptRevsMerge).2.1 ∧
      (validateHistory opsUnit scriptRevsMerge ["m"] "x" ()).1.map (fun i => i.kind) =
        ["alembicrevision-mismatch"] ∧
      (validateHistory opsUnit scriptRevsMerge ["m"] "x" ()).2.2 = [] := by
  refine ⟨⟨"m", ["p1", "p2"], by decide, by decide, by decide⟩, by decide, by decide⟩

/-- Witness for C7: the merge-shaped repository with a matching head
marker — the non-linearity hypothesis holds through the multi-child base
node, and the theorem yields the no-operation rejection. -/
theorem C7_structural_before_destructive_witness :
    notSingleLinearChain ["m"] (discoverRevisionGraph scriptRevsMerge).1
      (discoverRevisionGraph scriptRevsMerge).2.1 (discoverRevisionGraph scriptRevsMerge).2.2 ∧
      ∃ i : Issue,
        validateHistory opsUnit scriptRevsMerge ["m"] "m" () = ([i], ((), [])) ∧
          (i.kind = "multi-head-repository" ∨ i.kind = "multi-branch-repository" ∨
            i.kind = "alembicrevision-mismatch") := by
  have hns : notSingleLinearChain ["m"] (discoverRevisionGraph scriptRevsMerge).1
      (discoverRevisionGraph scriptRevsMerge).2.1 (discoverRevisionGraph scriptRevsMerge).2.2 :=
    Or.inr (Or.inl ⟨baseRevision, ["p1", "p2"], by decide, by decide⟩)
  exact ⟨hns, C7_structural_before_destructive Unit opsUnit scriptRevsMerge ["m"] "m" () hns⟩
